import Mathlib

/-!
Verification of `scripts/collect_nfl_data.py`.

The script is a single linear batch pass: load weekly NFL rows, aggregate
them into one record per `(player_name, position)` key, filter by
position-specific thresholds, sort and select the top players per position,
emit a JSON player database, and run a heuristic analysis pass over a
fetched player blob.

Numeric values that are Python floats in the script are embedded as exact
rational numbers.  Because kernel computation on Mathlib's `ℚ` is blocked
(its arithmetic is irreducible), we use an unnormalised fraction type
`Frac` (integer numerator, positive natural denominator) whose operations
are fully computable by the kernel; `Frac.toQ` interprets it in `ℚ` and the
transfer lemmas below show the order and arithmetic agree with `ℚ`.
-/

namespace NFLData

/-- Exact rational value: `num / den` with a positive denominator.
Unnormalised so that all operations compute by structural recursion. -/
structure Frac where
  num : ℤ
  den : ℕ+
deriving DecidableEq

namespace Frac

/-- Denominator as an integer. -/
def denZ (x : Frac) : ℤ := (x.den.val : ℤ)

/-- Embed an integer. -/
def fz (n : ℤ) : Frac := ⟨n, 1⟩

/-- Addition of fractions (cross multiplication, no normalisation). -/
def add (x y : Frac) : Frac := ⟨x.num * y.denZ + y.num * x.denZ, x.den * y.den⟩

/-- Subtraction of fractions. -/
def sub (x y : Frac) : Frac := ⟨x.num * y.denZ - y.num * x.denZ, x.den * y.den⟩

/-- Multiplication of fractions. -/
def mul (x y : Frac) : Frac := ⟨x.num * y.num, x.den * y.den⟩

/-- Division by a positive natural number. -/
def divP (x : Frac) (n : ℕ+) : Frac := ⟨x.num, x.den * n⟩

/-- Absolute value. -/
def absF (x : Frac) : Frac := ⟨|x.num|, x.den⟩

/-- Value order on fractions: `x ≤ y` as rational numbers. -/
def le (x y : Frac) : Prop := x.num * y.denZ ≤ y.num * x.denZ

/-- Strict value order on fractions. -/
def lt (x y : Frac) : Prop := x.num * y.denZ < y.num * x.denZ

/-- Value equality on fractions (equality as rational numbers). -/
def eqv (x y : Frac) : Prop := x.num * y.denZ = y.num * x.denZ

instance (x y : Frac) : Decidable (le x y) := by
  unfold le
  infer_instance

instance (x y : Frac) : Decidable (lt x y) := by
  unfold lt
  infer_instance

instance (x y : Frac) : Decidable (eqv x y) := by
  unfold eqv
  infer_instance

/-- Floor of the rational value (`Int.fdiv` is floor division). -/
def floorF (x : Frac) : ℤ := Int.fdiv x.num x.denZ

/-- Python `min(x, y)`: the first argument when they are equal. -/
def minF (x y : Frac) : Frac := if le x y then x else y

/-- Python `max(x, y)`: the first argument when they are equal. -/
def maxF (x y : Frac) : Frac := if le y x then x else y

/-- Rational interpretation, linking `Frac` to Mathlib's `ℚ`. -/
def toQ (x : Frac) : ℚ := (x.num : ℚ) / ((x.den.val : ℕ) : ℚ)

end Frac

/-- Sum of a list of fractions, accumulating from `0` on the left. -/
def fracSum (l : List Frac) : Frac := l.foldl Frac.add (Frac.fz 0)

/-- One row of `nfl.import_weekly_data([2024], columns=[...])`. -/
structure WeeklyRow where
  player_name : String
  position : String
  recent_team : String
  fantasy_points_ppr : Frac
  passing_yards : Frac
  rushing_yards : Frac
  receiving_yards : Frac
  passing_tds : Frac
  rushing_tds : Frac
  receiving_tds : Frac
deriving DecidableEq

/-- One accumulator record of the `player_stats` dictionary in
`process_players`. -/
structure PlayerStats where
  player_name : String
  position : String
  team : String
  total_fantasy_points : Frac
  total_passing_yards : Frac
  total_rushing_yards : Frac
  total_receiving_yards : Frac
  total_passing_tds : Frac
  total_rushing_tds : Frac
  total_receiving_tds : Frac
  games_played : ℕ
deriving DecidableEq

/-- The skip test of `process_players`: a row is kept unless its name is
empty or `'Unknown'` or its position is empty. -/
def validRow (r : WeeklyRow) : Bool :=
  !(decide (r.player_name = "") || decide (r.player_name = "Unknown") ||
    decide (r.position = ""))

/-- `unique_key = f"{player_name}_{position}"`. -/
def uniqueKey (r : WeeklyRow) : String := r.player_name ++ "_" ++ r.position

/-- The fresh accumulator record created when a key is first seen. -/
def initStats (r : WeeklyRow) : PlayerStats :=
  { player_name := r.player_name
    position := r.position
    team := r.recent_team
    total_fantasy_points := Frac.fz 0
    total_passing_yards := Frac.fz 0
    total_rushing_yards := Frac.fz 0
    total_receiving_yards := Frac.fz 0
    total_passing_tds := Frac.fz 0
    total_rushing_tds := Frac.fz 0
    total_receiving_tds := Frac.fz 0
    games_played := 0 }

/-- The per-row accumulation step (`stats['...'] += row[...]`, one more game
played, team overwritten by the most recent row). -/
def addRow (s : PlayerStats) (r : WeeklyRow) : PlayerStats :=
  { s with
    total_fantasy_points := s.total_fantasy_points.add r.fantasy_points_ppr
    total_passing_yards := s.total_passing_yards.add r.passing_yards
    total_rushing_yards := s.total_rushing_yards.add r.rushing_yards
    total_receiving_yards := s.total_receiving_yards.add r.receiving_yards
    total_passing_tds := s.total_passing_tds.add r.passing_tds
    total_rushing_tds := s.total_rushing_tds.add r.rushing_tds
    total_receiving_tds := s.total_receiving_tds.add r.receiving_tds
    games_played := s.games_played + 1
    team := r.recent_team }

/-- First value bound to a key in an association list (Python dict lookup). -/
def findA {β : Type} (k : String) : List (String × β) → Option β
  | [] => none
  | e :: rest => if e.1 = k then some e.2 else findA k rest

/-- Dictionary update for one row: accumulate into an existing entry in
place, or append a fresh entry at the end (Python dict insertion order). -/
def updateKey (k : String) (r : WeeklyRow) :
    List (String × PlayerStats) → List (String × PlayerStats)
  | [] => [(k, addRow (initStats r) r)]
  | e :: rest =>
    if e.1 = k then (e.1, addRow e.2 r) :: rest else e :: updateKey k r rest

/-- One iteration of the aggregation loop of `process_players`. -/
def aggStep (acc : List (String × PlayerStats)) (r : WeeklyRow) :
    List (String × PlayerStats) :=
  if validRow r then updateKey (uniqueKey r) r acc else acc

/-- The `player_stats` dictionary built by the aggregation loop, as an
insertion-ordered association list. -/
def aggregate (rows : List WeeklyRow) : List (String × PlayerStats) :=
  rows.foldl aggStep []

/-- The valid rows contributing to a given dictionary key. -/
def keyRows (k : String) (rows : List WeeklyRow) : List WeeklyRow :=
  rows.filter (fun r => validRow r && decide (uniqueKey r = k))

/-- The valid rows carrying a given `(player_name, position)` pair. -/
def rowsFor (rows : List WeeklyRow) (n p : String) : List WeeklyRow :=
  rows.filter
    (fun r => validRow r && decide (r.player_name = n) && decide (r.position = p))

/-- `min_thresholds` of `is_fantasy_relevant`: minimum total fantasy points
and games played by position. -/
def min_thresholds : List (String × (Frac × ℕ)) :=
  [("QB", (Frac.fz 50, 4)), ("RB", (Frac.fz 30, 3)),
   ("WR", (Frac.fz 25, 3)), ("TE", (Frac.fz 20, 3))]

/-- `is_fantasy_relevant`: positions outside the threshold table are never
relevant; otherwise both thresholds must be met. -/
def is_fantasy_relevant (s : PlayerStats) : Bool :=
  match findA s.position min_thresholds with
  | none => false
  | some t =>
    decide (Frac.le t.1 s.total_fantasy_points) && decide (t.2 ≤ s.games_played)

/-- Stable descending insertion: the new element goes before the first
strictly smaller one, hence after all earlier elements of equal value.
Folding it over a list left to right is a stable sort by descending
`total_fantasy_points`, the behaviour of Python's
`sort(key=..., reverse=True)`. -/
def insertPlayer (x : PlayerStats) : List PlayerStats → List PlayerStats
  | [] => [x]
  | y :: ys =>
    if Frac.lt y.total_fantasy_points x.total_fantasy_points then x :: y :: ys
    else y :: insertPlayer x ys

/-- Stable sort by descending `total_fantasy_points`. -/
def sortDesc (l : List PlayerStats) : List PlayerStats :=
  l.foldl (fun acc x => insertPlayer x acc) []

/-- The keys of the `sorted_players` buckets. -/
def bucketPositions : List String := ["QB", "RB", "WR", "TE"]

/-- The sorted bucket for one position: the fantasy-relevant players of
that position in arrival order, sorted by descending points. -/
def sortedBucket (fps : List PlayerStats) (pos : String) : List PlayerStats :=
  sortDesc (fps.filter (fun s => decide (s.position = pos)))

/-- The selection loop over `target_counts.items()`: each position present
in the buckets contributes the top `count` of its sorted bucket. -/
def selectAll (fps : List PlayerStats) :
    List (String × ℕ) → List PlayerStats
  | [] => []
  | pc :: rest =>
    (if decide (pc.1 ∈ bucketPositions) then
      (sortedBucket fps pc.1).take pc.2
    else []) ++ selectAll fps rest

/-- The fantasy-relevant players, in `player_stats` insertion order. -/
def fantasyPlayers (rows : List WeeklyRow) : List PlayerStats :=
  ((aggregate rows).map Prod.snd).filter is_fantasy_relevant

/-- `process_players`: aggregate, filter to relevant players, and select
the top players per position.  An empty input yields no players. -/
def process_players (rows : List WeeklyRow) (tc : List (String × ℕ)) :
    List PlayerStats :=
  if rows.isEmpty then [] else selectAll (fantasyPlayers rows) tc

/-- The `target_counts` dictionary of `main`. -/
def target_counts_main : List (String × ℕ) :=
  [("QB", 35), ("RB", 75), ("WR", 85), ("TE", 35)]

/-- Round a fraction to the nearest integer, ties to even — the behaviour
of Python's `round` (banker's rounding).  The fractional part is
`x - floor x`; below a half round down, above round up, at a half round to
the even neighbour. -/
def halfEvenRound (x : NFLData.Frac) : ℤ :=
  if Frac.lt (x.sub (Frac.fz x.floorF)) ⟨1, 2⟩ then x.floorF
  else if Frac.lt ⟨1, 2⟩ (x.sub (Frac.fz x.floorF)) then x.floorF + 1
  else if x.floorF % 2 = 0 then x.floorF else x.floorF + 1

/-- Python `round(x, 1)`: round to one decimal digit, ties to even. -/
def pyRound1 (x : NFLData.Frac) : NFLData.Frac :=
  ⟨halfEvenRound (x.mul (Frac.fz 10)), 10⟩

/-- Decimal digit characters. -/
def digitChar10 (n : ℕ) : Char :=
  match n with
  | 0 => '0'
  | 1 => '1'
  | 2 => '2'
  | 3 => '3'
  | 4 => '4'
  | 5 => '5'
  | 6 => '6'
  | 7 => '7'
  | 8 => '8'
  | _ => '9'

/-- Fuelled decimal representation (most significant digit first). -/
def decRepAux : ℕ → ℕ → List Char
  | 0, _ => []
  | fuel + 1, n =>
    if n < 10 then [digitChar10 n]
    else decRepAux fuel (n / 10) ++ [digitChar10 (n % 10)]

/-- Decimal representation of a natural number. -/
def decRep (n : ℕ) : List Char := decRepAux (n + 1) n

/-- `f"{i:03d}"`: the decimal representation zero-padded to width 3. -/
def pad3 (n : ℕ) : List Char :=
  List.replicate (3 - (decRep n).length) '0' ++ decRep n

/-- Numeric value of a digit string (inverse of `decRep`). -/
def charVal (cs : List Char) : ℕ :=
  cs.foldl (fun a c => a * 10 + (c.toNat - 48)) 0

/-- The maximal suffix of a character list containing no underscore. -/
def lastTok (cs : List Char) : List Char :=
  cs.foldl (fun acc c => if c = '_' then [] else acc ++ [c]) []

/-- `player_name.replace(' ', '_').replace('.', '').replace("'", '')`
on the character list of a name (space is `Char.ofNat 32`, period 46,
apostrophe 39). -/
def cleanName (s : String) : List Char :=
  ((s.data.map (fun c => if c = Char.ofNat 32 then '_' else c)).filter
    (fun c => !decide (c = Char.ofNat 46))).filter
    (fun c => !decide (c = Char.ofNat 39))

/-- Characters of `f"{player_name}_{position}_{team}_{i:03d}"` with the
cleaned name. -/
def player_id_chars (p : PlayerStats) (i : ℕ) : List Char :=
  cleanName p.player_name ++ ('_' :: p.position.data) ++
    ('_' :: p.team.data) ++ ('_' :: pad3 i)

/-- The unique player id generated by `create_player_json`. -/
def player_id (p : PlayerStats) (i : ℕ) : String :=
  String.mk (player_id_chars p i)

/-- `max(games_played, 1)` as a positive natural number. -/
def gamesP (g : ℕ) : ℕ+ :=
  ⟨max g 1, Nat.lt_of_lt_of_le Nat.one_pos (Nat.le_max_right g 1)⟩

/-- `position_adp_bases.get(position, 100)`. -/
def position_adp_base (pos : String) : ℤ :=
  if pos = "QB" then 80
  else if pos = "RB" then 40
  else if pos = "WR" then 50
  else if pos = "TE" then 120
  else 100

/-- One value of the `players` payload object written to `players.json`. -/
structure PlayerRecord where
  player_name : String
  position : String
  team : String
  projected_points_ppr : Frac
  adp_overall : ℤ
  adp_position : ℕ
  total_fantasy_points_2024 : Frac
  games_played_2024 : ℕ
  passing_yards_2024 : Frac
  rushing_yards_2024 : Frac
  receiving_yards_2024 : Frac
  total_tds_2024 : Frac
  risk_score : Frac
  last_updated : String
deriving DecidableEq

/-- The record built for the player at list index `i` by
`create_player_json` (`now` stands for `datetime.now().isoformat()`). -/
def mkRecord (p : PlayerStats) (i : ℕ) (now : String) : PlayerRecord :=
  let projected : Frac :=
    (p.total_fantasy_points.divP (gamesP p.games_played)).mul (Frac.fz 17)
  { player_name := p.player_name
    position := p.position
    team := p.team
    projected_points_ppr := pyRound1 projected
    adp_overall := position_adp_base p.position + ((i % 20 : ℕ) : ℤ) * 8
    adp_position := i % 30 + 1
    total_fantasy_points_2024 := pyRound1 p.total_fantasy_points
    games_played_2024 := max p.games_played 1
    passing_yards_2024 := p.total_passing_yards
    rushing_yards_2024 := p.total_rushing_yards
    receiving_yards_2024 := p.total_receiving_yards
    total_tds_2024 :=
      (p.total_passing_tds.add p.total_rushing_tds).add p.total_receiving_tds
    risk_score :=
      Frac.minF (pyRound1 ((projected.sub (Frac.fz 100)).absF.divP 10))
        (Frac.fz 10)
    last_updated := now }

/-- The `enumerate(processed_players)` loop of `create_player_json`,
carrying the running index. -/
def create_player_json_aux (now : String) :
    ℕ → List PlayerStats → List (String × PlayerRecord)
  | _, [] => []
  | i, p :: rest =>
    (player_id p i, mkRecord p i now) :: create_player_json_aux now (i + 1) rest

/-- `create_player_json`: the `players_dict` as an insertion-ordered
association list. -/
def create_player_json (processed : List PlayerStats) (now : String) :
    List (String × PlayerRecord) :=
  create_player_json_aux now 0 processed

/-- The `metadata` object of `players.json`. -/
structure DbMetadata where
  last_updated : String
  version : String
  total_players : ℕ
  position_breakdown : List (String × ℕ)
  data_collection_method : String
  next_update : String
deriving DecidableEq

/-- The `database` object written to `players.json`. -/
structure Database where
  metadata : DbMetadata
  players : List (String × PlayerRecord)
deriving DecidableEq

/-- The final database structure built in `main`. -/
def build_database (pd : List (String × PlayerRecord)) (now : String) :
    Database :=
  { metadata :=
      { last_updated := now
        version := "3.1"
        total_players := pd.length
        position_breakdown :=
          ["QB", "RB", "WR", "TE", "K", "DEF"].map
            (fun pos => (pos, pd.countP (fun e => decide (e.2.position = pos))))
        data_collection_method := "nflverse_2024_aggregated"
        next_update := "Weekly Tuesday 6AM UTC" }
    players := pd }

/-- A player record of the fetched `players.json` blob.  `player_name` and
`position` are always present in the blobs this pipeline produces (the
script indexes them directly); the remaining fields go through `.get`
with defaults and are optional. -/
structure GhPlayer where
  player_name : String
  position : String
  team : Option String
  adp_overall : Option Frac
  adp_position : Option Frac
  projected_points_ppr : Option Frac
deriving DecidableEq

/-- One player of the Fantasy Football Calculator ADP response. -/
structure AdpPlayer where
  name : String
  adp : Frac
  position_rank : Option Frac
  position : Option String
  team : Option String
deriving DecidableEq

/-- One value of the ADP lookup dictionary built by
`fetch_current_adp_data`. -/
structure AdpInfo where
  adp_overall : Frac
  adp_position : Option Frac
  position : Option String
  team : Option String
deriving DecidableEq

/-- Lowercase a string and replace spaces by underscores, character by
character — `name.lower().replace(' ', '_')`. -/
def adpKey (s : String) : String :=
  String.mk (s.data.map (fun c => if c = Char.ofNat 32 then '_' else c.toLower))

/-- Association-list update with Python dict semantics: overwrite in place,
else append. -/
def setA {β : Type} (k : String) (v : β) :
    List (String × β) → List (String × β)
  | [] => [(k, v)]
  | e :: rest => if e.1 = k then (e.1, v) :: rest else e :: setA k v rest

/-- The `adp_lookup` dictionary built from the ADP response. -/
def build_adp_lookup (ps : List AdpPlayer) : List (String × AdpInfo) :=
  ps.foldl
    (fun acc pl =>
      setA (adpKey pl.name)
        { adp_overall := pl.adp
          adp_position := pl.position_rank
          position := pl.position
          team := pl.team } acc)
    []

/-- Uppercase a string character by character (`team.upper()`). -/
def toUpperStr (s : String) : String := String.mk (s.data.map Char.toUpper)

/-- `should_verify_roster`. -/
def should_verify_roster (p : GhPlayer) : Bool :=
  if Frac.le (p.adp_overall.getD (Frac.fz 999)) (Frac.fz 100) then true
  else if decide (p.position ∈ ["QB", "RB", "WR"]) &&
      decide (Frac.le (p.adp_overall.getD (Frac.fz 999)) (Frac.fz 150)) then
    true
  else if decide ((toUpperStr (p.team.getD "")) ∈ ["FA", "N/A", ""]) then true
  else false

/-- Whether `ai_verify_player_roster` returns an update for this player:
only the two hard-coded known corrections ever fire. -/
def roster_update_fires (p : GhPlayer) : Bool :=
  should_verify_roster p &&
    (decide (p.player_name = "Justin Fields") ||
     decide (p.player_name = "Mike Williams"))

/-- The player data after the AI roster-verification step of the loop. -/
def roster_verified (p : GhPlayer) : GhPlayer :=
  if should_verify_roster p then
    if p.player_name = "Justin Fields" then { p with team := some "NYJ" }
    else if p.player_name = "Mike Williams" then { p with team := some "RETIRED" }
    else p
  else p

/-- The player data after the ADP-update step of the loop. -/
def adp_updated (adpL : Option (List (String × AdpInfo))) (p : GhPlayer) :
    GhPlayer :=
  match adpL with
  | none => p
  | some lookup =>
    match findA (adpKey p.player_name) lookup with
    | none => p
    | some info =>
      { p with
        adp_overall := some info.adp_overall
        adp_position := info.adp_position }

/-- Whether the loop counts this player as an ADP update
(`abs(old_adp - new_adp) > 10`). -/
def adp_update_big (adpL : Option (List (String × AdpInfo))) (p : GhPlayer) :
    Bool :=
  match adpL with
  | none => false
  | some lookup =>
    match findA (adpKey p.player_name) lookup with
    | none => false
    | some info =>
      decide (Frac.lt (Frac.fz 10)
        (((p.adp_overall.getD (Frac.fz 999)).sub info.adp_overall).absF))

/-- The result of `analyze_player_with_ai` for one player. -/
structure Analysis where
  score : Frac
  category_reason : String
  adp_vs_projection : Frac
  base_projection : Frac
  adp_value : Frac
  position_multiplier : Frac
  team_adjustment : Frac
deriving DecidableEq

/-- `position_multipliers.get(position, 1.0)`. -/
def position_multiplier_of (pos : String) : Frac :=
  if pos = "QB" then Frac.fz 1
  else if pos = "RB" then ⟨6, 5⟩
  else if pos = "WR" then ⟨11, 10⟩
  else if pos = "TE" then ⟨13, 10⟩
  else Frac.fz 1

/-- `team_adjustments.get(team, 0)`. -/
def team_adjustment_of (team : String) : Frac :=
  if team = "KC" then Frac.fz 10
  else if team = "BUF" then Frac.fz 8
  else if team = "SF" then Frac.fz 8
  else if team = "NYJ" then Frac.fz 5
  else if team = "RETIRED" then Frac.fz (-999)
  else Frac.fz 0

/-- `analyze_player_with_ai`. -/
def analyze_player_with_ai (p : GhPlayer) : Analysis :=
  let position := p.position
  let team := p.team.getD "Unknown"
  let adp := p.adp_overall.getD (Frac.fz 999)
  let projected := p.projected_points_ppr.getD (Frac.fz 100)
  let base_score := projected
  let adp_value := (Frac.maxF ((Frac.fz 200).sub adp) (Frac.fz 0)).mul ⟨3, 10⟩
  let mult := position_multiplier_of position
  let adj := team_adjustment_of team
  let final0 := ((base_score.add adp_value).mul mult).add adj
  let reason0 :=
    if Frac.le (Frac.fz 140) final0 then
      "Elite " ++ position ++ " with excellent ADP value and strong team situation"
    else if Frac.le (Frac.fz 95) final0 ∧ Frac.lt final0 (Frac.fz 115) then
      "Undervalued " ++ position ++ " with breakout potential"
    else "Solid " ++ position ++ " option for depth"
  let final := if team = "RETIRED" then Frac.fz 0 else final0
  let reason :=
    if team = "RETIRED" then "Player has retired - do not draft" else reason0
  { score := pyRound1 final
    category_reason := reason
    adp_vs_projection := projected.sub ((Frac.fz 200).sub adp)
    base_projection := projected
    adp_value := pyRound1 adp_value
    position_multiplier := mult
    team_adjustment := adj }

/-- The updated player data the loop body works with. -/
def updated_player (adpL : Option (List (String × AdpInfo))) (p : GhPlayer) :
    GhPlayer :=
  adp_updated adpL (roster_verified p)

/-- The analysis computed for one player of the blob. -/
def analysis_of (adpL : Option (List (String × AdpInfo))) (p : GhPlayer) :
    Analysis :=
  analyze_player_with_ai (updated_player adpL p)

/-- The `score >= 140` test putting a player into `must_starts`. -/
def cond_must (a : Analysis) : Prop := Frac.le (Frac.fz 140) a.score

/-- The `elif 95 <= score < 115` test putting a player into `sleepers`. -/
def cond_sleeper (a : Analysis) : Prop :=
  ¬cond_must a ∧ Frac.le (Frac.fz 95) a.score ∧ Frac.lt a.score (Frac.fz 115)

/-- The `elif adp_vs_projection < -20` test putting a player into `busts`. -/
def cond_bust (a : Analysis) : Prop :=
  ¬cond_must a ∧
    ¬(Frac.le (Frac.fz 95) a.score ∧ Frac.lt a.score (Frac.fz 115)) ∧
    Frac.lt a.adp_vs_projection (Frac.fz (-20))

instance (a : Analysis) : Decidable (cond_must a) := by
  unfold cond_must
  infer_instance

instance (a : Analysis) : Decidable (cond_sleeper a) := by
  unfold cond_sleeper cond_must
  infer_instance

instance (a : Analysis) : Decidable (cond_bust a) := by
  unfold cond_bust cond_must
  infer_instance

/-- An entry of the `must_starts`, `sleepers` or `busts` lists
(`adp_vs_projection` is only present on bust entries). -/
structure CatEntry where
  player_id : String
  name : String
  position : String
  team : Option String
  score : Frac
  adp_vs_projection : Option Frac
  reason : String
deriving DecidableEq

/-- An entry of the `roster_corrections_made` list. -/
structure RosterCorrection where
  player : String
  old_team : String
  new_team : String
  fantasy_impact : String
deriving DecidableEq

/-- The `executive_summary` object. -/
structure ExecSummary where
  total_players_analyzed : ℕ
  roster_corrections_made : ℕ
  adp_updates_applied : ℕ
  key_insights : List String
  top_recommendation : Option CatEntry
  top_sleeper : Option CatEntry
deriving DecidableEq

/-- The `metadata` object of `ai_insights.json`. -/
structure AnalysisMetadata where
  analysis_date : String
  players_analyzed : ℕ
  roster_corrections : ℕ
  adp_updates : ℕ
  ai_version : String
deriving DecidableEq

/-- The `analysis_results` object written to `ai_insights.json`. -/
structure AnalysisResults where
  metadata : AnalysisMetadata
  roster_corrections_made : List RosterCorrection
  must_starts : List CatEntry
  sleepers : List CatEntry
  busts : List CatEntry
  player_analysis : List (String × Analysis)
  executive_summary : ExecSummary
deriving DecidableEq

/-- Decimal string of a natural number. -/
def natStr (n : ℕ) : String := String.mk (decRep n)

/-- The must-start / sleeper entry appended for a categorized player. -/
def mkCatEntry (pid : String) (p : GhPlayer) (a : Analysis) : CatEntry :=
  { player_id := pid
    name := p.player_name
    position := p.position
    team := p.team
    score := a.score
    adp_vs_projection := none
    reason := a.category_reason }

/-- The bust entry appended for a categorized player. -/
def mkBustEntry (pid : String) (p : GhPlayer) (a : Analysis) : CatEntry :=
  { player_id := pid
    name := p.player_name
    position := p.position
    team := p.team
    score := a.score
    adp_vs_projection := some a.adp_vs_projection
    reason := "ADP significantly higher than AI projection" }

/-- The roster-correction entry appended when a known correction fires. -/
def mkRosterCorrection (p : GhPlayer) : RosterCorrection :=
  if p.player_name = "Justin Fields" then
    { player := p.player_name
      old_team := p.team.getD "Unknown"
      new_team := "NYJ"
      fantasy_impact :=
        "Positive - Starting opportunity with Jets increases value" }
  else
    { player := p.player_name
      old_team := p.team.getD "Unknown"
      new_team := "RETIRED"
      fantasy_impact := "Critical - Player retired, remove from all analysis" }

/-- `perform_enhanced_analysis`: one pass over the players of the blob.
Each loop iteration is independent, so each output list is the
corresponding map / filter over the blob in order. -/
def perform_enhanced_analysis (blob : List (String × GhPlayer))
    (adpL : Option (List (String × AdpInfo))) (now : String) :
    AnalysisResults :=
  let must := blob.filterMap (fun e =>
    let p := updated_player adpL e.2
    let a := analyze_player_with_ai p
    if cond_must a then some (mkCatEntry e.1 p a) else none)
  let sleep := blob.filterMap (fun e =>
    let p := updated_player adpL e.2
    let a := analyze_player_with_ai p
    if cond_sleeper a then some (mkCatEntry e.1 p a) else none)
  let bust := blob.filterMap (fun e =>
    let p := updated_player adpL e.2
    let a := analyze_player_with_ai p
    if cond_bust a then some (mkBustEntry e.1 p a) else none)
  let rcm := blob.filterMap (fun e =>
    if roster_update_fires e.2 then some (mkRosterCorrection e.2) else none)
  let nRc := blob.countP (fun e => roster_update_fires e.2)
  let nAdp := blob.countP (fun e => adp_update_big adpL (roster_verified e.2))
  { metadata :=
      { analysis_date := now
        players_analyzed := blob.length
        roster_corrections := nRc
        adp_updates := nAdp
        ai_version := "enhanced_v2.0" }
    roster_corrections_made := rcm
    must_starts := must
    sleepers := sleep
    busts := bust
    player_analysis := blob.map (fun e => (e.1, analysis_of adpL e.2))
    executive_summary :=
      { total_players_analyzed := blob.length
        roster_corrections_made := nRc
        adp_updates_applied := nAdp
        key_insights :=
          ["Identified " ++ natStr must.length ++ " must-start players",
           "Found " ++ natStr sleep.length ++ " sleeper candidates",
           "Flagged " ++ natStr bust.length ++ " potential bust risks",
           "Made " ++ natStr nRc ++ " roster corrections"]
        top_recommendation := must.head?
        top_sleeper := sleep.head? } }

/-- `load_nfl_data`: the `nfl.import_weekly_data` call either returns rows
or raises; the exception is caught inside the function, which then
returns `None`. -/
def load_nfl_data (res : Except String (List WeeklyRow)) :
    Option (List WeeklyRow) :=
  match res with
  | .ok rows => some rows
  | .error _ => none

/-- The fetched `players.json` blob: its `players` map. -/
structure PlayersData where
  players : List (String × GhPlayer)
deriving DecidableEq

/-- `fetch_github_player_data`: the HTTP fetch either returns the blob or
raises; the exception is caught inside the function, which returns
`None`. -/
def fetch_github_player_data (res : Except String PlayersData) :
    Option PlayersData :=
  match res with
  | .ok d => some d
  | .error _ => none

/-- `fetch_current_adp_data`: on success the response is converted to the
lookup dictionary; an exception is caught inside the function, which
returns `None`. -/
def fetch_current_adp_data (res : Except String (List AdpPlayer)) :
    Option (List (String × AdpInfo)) :=
  match res with
  | .ok ps => some (build_adp_lookup ps)
  | .error _ => none

/-- Abstract content of a written output file. -/
inductive OutContent where
  | playersFile : Database → OutContent
  | insightsFile : AnalysisResults → OutContent
deriving DecidableEq

/-- `enhanced_ai_analysis_with_roster_verification`: the files it writes.
If the players-blob fetch failed it returns an error result without
writing; otherwise it analyzes and saves `ai_insights.json`. -/
def enhanced_run (blobRes : Except String PlayersData)
    (adpRes : Except String (List AdpPlayer)) (now : String) :
    List (String × OutContent) :=
  match fetch_github_player_data blobRes with
  | none => []
  | some blob =>
    let adpL := fetch_current_adp_data adpRes
    let ar := perform_enhanced_analysis blob.players adpL now
    [("json_data/ai_insights.json", OutContent.insightsFile ar)]

/-- `main`: the files a run writes, given the outcomes of the three
fallible external calls.  A failed weekly-data load or an empty processed
list returns early without writing anything. -/
def mainRun (weeklyRes : Except String (List WeeklyRow))
    (blobRes : Except String PlayersData)
    (adpRes : Except String (List AdpPlayer)) (now : String) :
    List (String × OutContent) :=
  match load_nfl_data weeklyRes with
  | none => []
  | some rows =>
    let processed := process_players rows target_counts_main
    if processed.isEmpty then []
    else
      let pd := create_player_json processed now
      let db := build_database pd now
      ("json_data/players.json", OutContent.playersFile db) ::
        enhanced_run blobRes adpRes now

/-- A sample weekly row used in concrete instantiations. -/
def sampleRow (nm pos tm : String) (pts : ℤ) : WeeklyRow :=
  { player_name := nm
    position := pos
    recent_team := tm
    fantasy_points_ppr := Frac.fz pts
    passing_yards := Frac.fz 250
    rushing_yards := Frac.fz 10
    receiving_yards := Frac.fz 0
    passing_tds := Frac.fz 2
    rushing_tds := Frac.fz 0
    receiving_tds := Frac.fz 0 }

/-- Four weekly rows of one quarterback, enough to pass the QB
thresholds. -/
def sampleRows : List WeeklyRow :=
  [sampleRow "Tom Brady" "QB" "NE" 15, sampleRow "Tom Brady" "QB" "NE" 15,
   sampleRow "Tom Brady" "QB" "NE" 15, sampleRow "Tom Brady" "QB" "NE" 15]

/-- Two valid rows with distinct `(player_name, position)` pairs that build
the same `name_position` dictionary key `"A_B_C"`. -/
def collisionRows : List WeeklyRow :=
  [sampleRow "A_B" "C" "T1" 1, sampleRow "A" "B_C" "T2" 2]

/-- A sample fetched player whose analysis score is `120`, between the
sleeper and must-start ranges. -/
def sampleGh : GhPlayer :=
  { player_name := "Some Guy"
    position := "QB"
    team := some "ZZ"
    adp_overall := some (Frac.fz 999)
    adp_position := none
    projected_points_ppr := some (Frac.fz 120) }

/-- A sample fetched blob with one player. -/
def sampleBlob : PlayersData := ⟨[("p1", sampleGh)]⟩

/-- Default `PlayerStats` value (used only as a `getD` fallback). -/
def defaultPlayerStats : PlayerStats :=
  { player_name := ""
    position := ""
    team := ""
    total_fantasy_points := Frac.fz 0
    total_passing_yards := Frac.fz 0
    total_rushing_yards := Frac.fz 0
    total_receiving_yards := Frac.fz 0
    total_passing_tds := Frac.fz 0
    total_rushing_tds := Frac.fz 0
    total_receiving_tds := Frac.fz 0
    games_played := 0 }

/-- Default `(player_id, record)` entry (used only as a `getD` fallback). -/
def defaultEntry : String × PlayerRecord :=
  ("", mkRecord defaultPlayerStats 0 "")

namespace Frac

theorem denZ_pos (x : Frac) : 0 < x.denZ := by
  unfold denZ
  exact_mod_cast x.den.property

theorem le_rfl_f (x : Frac) : le x x := Int.le_refl _

theorem le_of_lt_f {x y : Frac} (h : lt x y) : le x y := Int.le_of_lt h

theorem le_of_not_lt_f {x y : Frac} (h : ¬lt x y) : le y x := Int.not_lt.mp h

theorem le_trans_f {x y z : Frac} (h1 : le x y) (h2 : le y z) : le x z := by
  have hd1 := denZ_pos x
  have hd2 := denZ_pos y
  have hd3 := denZ_pos z
  have h1' := mul_le_mul_of_nonneg_right h1 (le_of_lt hd3)
  have h2' := mul_le_mul_of_nonneg_right h2 (le_of_lt hd1)
  have key : x.num * z.denZ * y.denZ ≤ z.num * x.denZ * y.denZ := by
    nlinarith [h1', h2']
  exact le_of_mul_le_mul_right key hd2

theorem den_q_pos (x : Frac) : (0 : ℚ) < ((x.den.val : ℕ) : ℚ) := by
  exact_mod_cast x.den.property

theorem le_iff_toQ {x y : Frac} : le x y ↔ x.toQ ≤ y.toQ := by
  unfold le toQ denZ
  rw [div_le_div_iff (den_q_pos x) (den_q_pos y)]
  constructor
  · intro h
    exact_mod_cast h
  · intro h
    exact_mod_cast h

theorem lt_iff_toQ {x y : Frac} : lt x y ↔ x.toQ < y.toQ := by
  unfold lt toQ denZ
  rw [div_lt_div_iff (den_q_pos x) (den_q_pos y)]
  constructor
  · intro h
    exact_mod_cast h
  · intro h
    exact_mod_cast h

theorem eqv_iff_toQ {x y : Frac} : eqv x y ↔ x.toQ = y.toQ := by
  unfold eqv toQ denZ
  rw [div_eq_div_iff (ne_of_gt (den_q_pos x)) (ne_of_gt (den_q_pos y))]
  constructor
  · intro h
    exact_mod_cast h
  · intro h
    exact_mod_cast h

theorem add_toQ (x y : Frac) : (x.add y).toQ = x.toQ + y.toQ := by
  unfold add toQ denZ
  have hx := den_q_pos x
  have hy := den_q_pos y
  rw [PNat.mul_coe]
  push_cast
  field_simp

theorem mul_toQ (x y : Frac) : (x.mul y).toQ = x.toQ * y.toQ := by
  unfold mul toQ
  have hx := den_q_pos x
  have hy := den_q_pos y
  rw [PNat.mul_coe]
  push_cast
  field_simp

end Frac

/-- Claim C2: an aggregated record is kept by `is_fantasy_relevant` exactly
when its position is one of QB, RB, WR, TE with the position's minimum
total fantasy points (QB 50, RB 30, WR 25, TE 20) and minimum games
played (QB 4, others 3); all other positions are excluded. -/
theorem c2_threshold_filter (s : PlayerStats) :
    is_fantasy_relevant s = true ↔
      ((s.position = "QB" ∧ Frac.le (Frac.fz 50) s.total_fantasy_points ∧
          4 ≤ s.games_played) ∨
       (s.position = "RB" ∧ Frac.le (Frac.fz 30) s.total_fantasy_points ∧
          3 ≤ s.games_played) ∨
       (s.position = "WR" ∧ Frac.le (Frac.fz 25) s.total_fantasy_points ∧
          3 ≤ s.games_played) ∨
       (s.position = "TE" ∧ Frac.le (Frac.fz 20) s.total_fantasy_points ∧
          3 ≤ s.games_played)) := by
  by_cases hq : s.position = "QB"
  · simp [is_fantasy_relevant, min_thresholds, findA, hq]
  · by_cases hr : s.position = "RB"
    · simp [is_fantasy_relevant, min_thresholds, findA, hq, hr]
    · by_cases hw : s.position = "WR"
      · simp [is_fantasy_relevant, min_thresholds, findA, hq, hr, hw]
      · by_cases ht : s.position = "TE"
        · simp [is_fantasy_relevant, min_thresholds, findA, hq, hr, hw, ht]
        · simp [is_fantasy_relevant, min_thresholds, findA, hq, hr, hw, ht,
            Ne.symm hq, Ne.symm hr, Ne.symm hw, Ne.symm ht]

theorem findA_updateKey_self (k : String) (r : WeeklyRow)
    (l : List (String × PlayerStats)) :
    findA k (updateKey k r l) =
      some (match findA k l with
            | some s => addRow s r
            | none => addRow (initStats r) r) := by
  induction l with
  | nil => simp [updateKey, findA]
  | cons e t ih =>
    by_cases h : e.1 = k
    · simp [updateKey, findA, h]
    · simp [updateKey, findA, h, ih]

theorem findA_updateKey_other {k x : String} (hx : x ≠ k) (r : WeeklyRow)
    (l : List (String × PlayerStats)) :
    findA x (updateKey k r l) = findA x l := by
  induction l with
  | nil => simp [updateKey, findA, Ne.symm hx]
  | cons e t ih =>
    by_cases h : e.1 = k
    · simp [updateKey, findA, h, Ne.symm hx]
    · simp [updateKey, findA, h, ih]

theorem updateKey_map_fst_mem {k : String} (r : WeeklyRow)
    {l : List (String × PlayerStats)} (h : k ∈ l.map Prod.fst) :
    (updateKey k r l).map Prod.fst = l.map Prod.fst := by
  induction l with
  | nil => simp at h
  | cons e t ih =>
    by_cases he : e.1 = k
    · simp [updateKey, he]
    · have h' : k ∈ t.map Prod.fst := by
        simp only [List.map_cons, List.mem_cons] at h
        rcases h with hh | hh
        · exact absurd hh.symm he
        · exact hh
      simp [updateKey, he, ih h']

theorem updateKey_map_fst_new {k : String} (r : WeeklyRow)
    {l : List (String × PlayerStats)} (h : k ∉ l.map Prod.fst) :
    (updateKey k r l).map Prod.fst = l.map Prod.fst ++ [k] := by
  induction l with
  | nil => simp [updateKey]
  | cons e t ih =>
    have he : ¬e.1 = k := fun hh => h (by simp [hh])
    have h' : k ∉ t.map Prod.fst := fun hh => h (by simp [hh])
    simp [updateKey, he, ih h']

theorem foldl_aggStep_keys_nodup (rows : List WeeklyRow) :
    ∀ acc : List (String × PlayerStats),
      (acc.map Prod.fst).Nodup → ((rows.foldl aggStep acc).map Prod.fst).Nodup := by
  induction rows with
  | nil => intro acc h; simpa
  | cons r t ih =>
    intro acc h
    simp only [List.foldl_cons]
    apply ih
    by_cases hv : validRow r = true
    · have : aggStep acc r = updateKey (uniqueKey r) r acc := by
        unfold aggStep; rw [if_pos hv]
      rw [this]
      by_cases hk : uniqueKey r ∈ acc.map Prod.fst
      · rw [updateKey_map_fst_mem _ hk]; exact h
      · rw [updateKey_map_fst_new _ hk]
        simp [List.nodup_append, h, hk]
    · have : aggStep acc r = acc := by unfold aggStep; rw [if_neg hv]
      rw [this]; exact h

theorem aggregate_keys_nodup (rows : List WeeklyRow) :
    ((aggregate rows).map Prod.fst).Nodup :=
  foldl_aggStep_keys_nodup rows [] (by simp)

theorem foldl_addRow_spec (l : List WeeklyRow) :
    ∀ s : PlayerStats,
      (l.foldl addRow s).player_name = s.player_name ∧
      (l.foldl addRow s).position = s.position ∧
      (l.foldl addRow s).total_fantasy_points =
        List.foldl Frac.add s.total_fantasy_points
          (l.map fun r => r.fantasy_points_ppr) ∧
      (l.foldl addRow s).total_passing_yards =
        List.foldl Frac.add s.total_passing_yards (l.map fun r => r.passing_yards) ∧
      (l.foldl addRow s).total_rushing_yards =
        List.foldl Frac.add s.total_rushing_yards (l.map fun r => r.rushing_yards) ∧
      (l.foldl addRow s).total_receiving_yards =
        List.foldl Frac.add s.total_receiving_yards
          (l.map fun r => r.receiving_yards) ∧
      (l.foldl addRow s).total_passing_tds =
        List.foldl Frac.add s.total_passing_tds (l.map fun r => r.passing_tds) ∧
      (l.foldl addRow s).total_rushing_tds =
        List.foldl Frac.add s.total_rushing_tds (l.map fun r => r.rushing_tds) ∧
      (l.foldl addRow s).total_receiving_tds =
        List.foldl Frac.add s.total_receiving_tds (l.map fun r => r.receiving_tds) ∧
      (l.foldl addRow s).games_played = s.games_played + l.length := by
  induction l with
  | nil => intro s; simp
  | cons r t ih =>
    intro s
    obtain ⟨h1, h2, h3, h4, h5, h6, h7, h8, h9, h10⟩ := ih (addRow s r)
    simp only [List.foldl_cons, List.map_cons, List.length_cons]
    refine ⟨h1, h2, h3, h4, h5, h6, h7, h8, h9, ?_⟩
    rw [h10]
    simp only [addRow]
    omega

theorem findA_foldl_aggStep (rows : List WeeklyRow) :
    ∀ (acc : List (String × PlayerStats)) (k : String),
      findA k (rows.foldl aggStep acc) =
        match findA k acc with
        | some s => some ((keyRows k rows).foldl addRow s)
        | none =>
          match keyRows k rows with
          | [] => none
          | r0 :: _ => some ((keyRows k rows).foldl addRow (initStats r0)) := by
  induction rows with
  | nil =>
    intro acc k
    cases hacc : findA k acc <;> simp [keyRows, hacc]
  | cons r t ih =>
    intro acc k
    simp only [List.foldl_cons]
    by_cases hv : validRow r = true
    · by_cases hk : uniqueKey r = k
      · have hstep : aggStep acc r = updateKey k r acc := by
          unfold aggStep; rw [if_pos hv, hk]
        have hkr : keyRows k (r :: t) = r :: keyRows k t := by
          unfold keyRows; simp [List.filter_cons, hv, hk]
        rw [hstep, ih (updateKey k r acc) k, findA_updateKey_self, hkr]
        cases hacc : findA k acc <;> simp [hacc, List.foldl_cons]
      · have hstep : aggStep acc r = updateKey (uniqueKey r) r acc := by
          unfold aggStep; rw [if_pos hv]
        have hne : k ≠ uniqueKey r := fun h => hk h.symm
        have hkr : keyRows k (r :: t) = keyRows k t := by
          unfold keyRows; simp [List.filter_cons, hv, hk]
        rw [hstep, ih (updateKey (uniqueKey r) r acc) k,
          findA_updateKey_other hne, hkr]
    · have hstep : aggStep acc r = acc := by unfold aggStep; rw [if_neg hv]
      have hkr : keyRows k (r :: t) = keyRows k t := by
        unfold keyRows; simp [List.filter_cons, hv]
      rw [hstep, ih acc k, hkr]

theorem findA_aggregate (rows : List WeeklyRow) (k : String) :
    findA k (aggregate rows) =
      match keyRows k rows with
      | [] => none
      | r0 :: _ => some ((keyRows k rows).foldl addRow (initStats r0)) := by
  have h := findA_foldl_aggStep rows [] k
  simpa [aggregate, findA] using h

theorem findA_some_mem {β : Type} {k : String} {v : β} :
    ∀ {l : List (String × β)}, findA k l = some v → (k, v) ∈ l := by
  intro l
  induction l with
  | nil => intro h; simp [findA] at h
  | cons e t ih =>
    intro h
    by_cases he : e.1 = k
    · simp only [findA, if_pos he] at h
      have : (k, v) = e := by
        obtain ⟨e1, e2⟩ := e
        simp only [Option.some.injEq] at h
        simp_all
      exact this ▸ List.mem_cons_self _ _
    · simp only [findA, if_neg he] at h
      exact List.mem_cons_of_mem _ (ih h)

theorem findA_of_mem_nodup {β : Type} :
    ∀ {l : List (String × β)}, (l.map Prod.fst).Nodup →
      ∀ {e : String × β}, e ∈ l → findA e.1 l = some e.2 := by
  intro l
  induction l with
  | nil => intro _ e h; simp at h
  | cons f t ih =>
    intro hnd e he
    simp only [List.map_cons, List.nodup_cons] at hnd
    rcases List.mem_cons.mp he with h | h
    · subst h; simp [findA]
    · have hne : ¬f.1 = e.1 := by
        intro hh
        exact hnd.1 (hh ▸ List.mem_map.mpr ⟨e, h, rfl⟩)
      simp only [findA, if_neg hne]
      exact ih hnd.2 h

theorem aggregate_entry_shape {rows : List WeeklyRow} {e : String × PlayerStats}
    (he : e ∈ aggregate rows) :
    ∃ r0 t, keyRows e.1 rows = r0 :: t ∧
      e.2 = (r0 :: t).foldl addRow (initStats r0) := by
  have hf : findA e.1 (aggregate rows) = some e.2 :=
    findA_of_mem_nodup (aggregate_keys_nodup rows) he
  rw [findA_aggregate] at hf
  cases hkr : keyRows e.1 rows with
  | nil => rw [hkr] at hf; simp at hf
  | cons r0 t =>
    rw [hkr] at hf
    simp only [Option.some.injEq] at hf
    exact ⟨r0, t, rfl, hf.symm⟩

theorem aggregate_entry_fields {rows : List WeeklyRow} {e : String × PlayerStats}
    (he : e ∈ aggregate rows) :
    e.2.player_name ++ "_" ++ e.2.position = e.1 ∧
    ∃ r0, r0 ∈ rows ∧ validRow r0 = true ∧ uniqueKey r0 = e.1 ∧
      e.2.player_name = r0.player_name ∧ e.2.position = r0.position := by
  obtain ⟨r0, t, hkr, hval⟩ := aggregate_entry_shape he
  have hmem : r0 ∈ keyRows e.1 rows := by rw [hkr]; exact List.mem_cons_self _ _
  obtain ⟨hr_mem, hcond⟩ := List.mem_filter.mp hmem
  have hv : validRow r0 = true ∧ uniqueKey r0 = e.1 := by
    simpa [Bool.and_eq_true, decide_eq_true_eq] using hcond
  have hspec := foldl_addRow_spec (r0 :: t) (initStats r0)
  have hn : e.2.player_name = r0.player_name := by rw [hval]; exact hspec.1
  have hp : e.2.position = r0.position := by rw [hval]; exact hspec.2.1
  refine ⟨?_, r0, hr_mem, hv.1, hv.2, hn, hp⟩
  rw [hn, hp, ← hv.2]
  rfl

theorem length_le_one_of_all_eq {l : List String} (hnd : l.Nodup)
    (K : String) (hall : ∀ x ∈ l, x = K) : l.length ≤ 1 := by
  cases l with
  | nil => simp
  | cons a t =>
    cases t with
    | nil => simp
    | cons b u =>
      exfalso
      have ha := hall a (by simp)
      have hb := hall b (by simp)
      rw [List.nodup_cons] at hnd
      exact hnd.1 (by rw [ha, hb]; exact List.mem_cons_self _ _)

theorem keyRows_eq_rowsFor {rows : List WeeklyRow}
    (hinj : ∀ r ∈ rows, ∀ q ∈ rows, validRow r = true → validRow q = true →
      uniqueKey r = uniqueKey q →
      r.player_name = q.player_name ∧ r.position = q.position)
    {n p : String} {rh : WeeklyRow} (hrh : rh ∈ rows)
    (hv : validRow rh = true) (hn : rh.player_name = n) (hp : rh.position = p) :
    keyRows (n ++ "_" ++ p) rows = rowsFor rows n p := by
  unfold keyRows rowsFor
  apply List.filter_congr
  intro r hr
  by_cases hvr : validRow r = true
  · simp only [hvr, Bool.true_and]
    by_cases hu : uniqueKey r = n ++ "_" ++ p
    · have huu : uniqueKey r = uniqueKey rh := by
        rw [hu]; unfold uniqueKey; rw [hn, hp]
      obtain ⟨h1, h2⟩ := hinj r hr rh hrh hvr hv huu
      simp [hu, h1.trans hn, h2.trans hp]
    · by_cases hna : r.player_name = n
      · by_cases hpb : r.position = p
        · exact absurd (by unfold uniqueKey; rw [hna, hpb]) hu
        · simp [hu, hpb]
      · simp [hu, hna]
  · simp only [Bool.not_eq_true] at hvr
    simp [hvr]

/-- Claim C1 (amended): assuming the `name_position` key construction is
injective on the `(player_name, position)` pairs of the valid rows — true
in particular whenever no position string contains an underscore — each
distinct pair occurring in a valid row produces exactly one aggregated
record, whose running totals are the sums (and whose `games_played` is the
count) over exactly the rows carrying that pair. -/
theorem c1_aggregation (rows : List WeeklyRow)
    (hinj : ∀ r ∈ rows, ∀ q ∈ rows, validRow r = true → validRow q = true →
      uniqueKey r = uniqueKey q →
      r.player_name = q.player_name ∧ r.position = q.position)
    (n p : String)
    (hex : ∃ r ∈ rows, validRow r = true ∧ r.player_name = n ∧ r.position = p) :
    ((aggregate rows).filter
        (fun e => decide (e.2.player_name = n) && decide (e.2.position = p))).length = 1 ∧
    ∀ e ∈ (aggregate rows).filter
        (fun e => decide (e.2.player_name = n) && decide (e.2.position = p)),
      e.2.total_fantasy_points =
        fracSum ((rowsFor rows n p).map fun r => r.fantasy_points_ppr) ∧
      e.2.total_passing_yards =
        fracSum ((rowsFor rows n p).map fun r => r.passing_yards) ∧
      e.2.total_rushing_yards =
        fracSum ((rowsFor rows n p).map fun r => r.rushing_yards) ∧
      e.2.total_receiving_yards =
        fracSum ((rowsFor rows n p).map fun r => r.receiving_yards) ∧
      e.2.total_passing_tds =
        fracSum ((rowsFor rows n p).map fun r => r.passing_tds) ∧
      e.2.total_rushing_tds =
        fracSum ((rowsFor rows n p).map fun r => r.rushing_tds) ∧
      e.2.total_receiving_tds =
        fracSum ((rowsFor rows n p).map fun r => r.receiving_tds) ∧
      e.2.games_played = (rowsFor rows n p).length := by
  obtain ⟨rh, hrmem, hrv, hrn, hrp⟩ := hex
  have hukey : uniqueKey rh = n ++ "_" ++ p := by
    unfold uniqueKey; rw [hrn, hrp]
  have hKR : keyRows (n ++ "_" ++ p) rows = rowsFor rows n p :=
    keyRows_eq_rowsFor hinj hrmem hrv hrn hrp
  have hkr_mem : rh ∈ keyRows (n ++ "_" ++ p) rows := by
    refine List.mem_filter.mpr ⟨hrmem, ?_⟩
    simp [hrv, hukey]
  -- the filtered entries all carry the key n ++ "_" ++ p
  have hkey_of_mem : ∀ e ∈ (aggregate rows).filter
      (fun e => decide (e.2.player_name = n) && decide (e.2.position = p)),
      e.1 = n ++ "_" ++ p ∧ e ∈ aggregate rows := by
    intro e hem
    obtain ⟨hagg, hcond⟩ := List.mem_filter.mp hem
    have hc : e.2.player_name = n ∧ e.2.position = p := by
      simpa [Bool.and_eq_true, decide_eq_true_eq] using hcond
    obtain ⟨hshape, _⟩ := aggregate_entry_fields hagg
    refine ⟨?_, hagg⟩
    rw [← hshape, hc.1, hc.2]
  -- the record stored at that key
  have hfind := findA_aggregate rows (n ++ "_" ++ p)
  cases hkr : keyRows (n ++ "_" ++ p) rows with
  | nil => rw [hkr] at hkr_mem; simp at hkr_mem
  | cons r0 t =>
    rw [hkr] at hfind
    have hr0mem : r0 ∈ keyRows (n ++ "_" ++ p) rows := by
      rw [hkr]; exact List.mem_cons_self _ _
    obtain ⟨hr0_rows, hr0cond⟩ := List.mem_filter.mp hr0mem
    have hr0v : validRow r0 = true ∧ uniqueKey r0 = n ++ "_" ++ p := by
      simpa [Bool.and_eq_true, decide_eq_true_eq] using hr0cond
    have hr0np : r0.player_name = n ∧ r0.position = p := by
      have := hinj r0 hr0_rows rh hrmem hr0v.1 hrv (hr0v.2.trans hukey.symm)
      exact ⟨this.1.trans hrn, this.2.trans hrp⟩
    set sK := (r0 :: t).foldl addRow (initStats r0) with hsK
    have hspec := foldl_addRow_spec (r0 :: t) (initStats r0)
    have hsKn : sK.player_name = n := by
      rw [hsK]
      exact hspec.1.trans hr0np.1
    have hsKp : sK.position = p := by
      rw [hsK]
      exact hspec.2.1.trans hr0np.2
    have hmemK : (n ++ "_" ++ p, sK) ∈ aggregate rows :=
      findA_some_mem hfind
    have hmemFilter : (n ++ "_" ++ p, sK) ∈ (aggregate rows).filter
        (fun e => decide (e.2.player_name = n) && decide (e.2.position = p)) := by
      refine List.mem_filter.mpr ⟨hmemK, ?_⟩
      simp [hsKn, hsKp]
    constructor
    · -- exactly one entry
      refine le_antisymm ?_ ?_
      · have hsub : ((aggregate rows).filter
            (fun e => decide (e.2.player_name = n) && decide (e.2.position = p))).map
              Prod.fst |>.Nodup :=
          List.Nodup.sublist ((List.filter_sublist _).map Prod.fst)
            (aggregate_keys_nodup rows)
        have hall : ∀ x ∈ ((aggregate rows).filter
            (fun e => decide (e.2.player_name = n) && decide (e.2.position = p))).map
              Prod.fst, x = n ++ "_" ++ p := by
          intro x hx
          obtain ⟨e, hem, hxe⟩ := List.mem_map.mp hx
          rw [← hxe]
          exact (hkey_of_mem e hem).1
        have := length_le_one_of_all_eq hsub (n ++ "_" ++ p) hall
        simpa using this
      · exact List.length_pos_of_mem hmemFilter
    · -- the totals
      intro e hem
      obtain ⟨hekey, hagg⟩ := hkey_of_mem e hem
      have hfe : findA e.1 (aggregate rows) = some e.2 :=
        findA_of_mem_nodup (aggregate_keys_nodup rows) hagg
      rw [hekey, hfind] at hfe
      have he2 : e.2 = sK := by
        simpa using hfe.symm
      have he3 : e.2 = (rowsFor rows n p).foldl addRow (initStats r0) := by
        rw [he2, hsK, ← hkr, hKR]
      rw [he3]
      unfold fracSum
      refine ⟨?_, ?_, ?_, ?_, ?_, ?_, ?_, ?_⟩
      · rw [(foldl_addRow_spec (rowsFor rows n p) (initStats r0)).2.2.1]
        rfl
      · rw [(foldl_addRow_spec (rowsFor rows n p) (initStats r0)).2.2.2.1]
        rfl
      · rw [(foldl_addRow_spec (rowsFor rows n p) (initStats r0)).2.2.2.2.1]
        rfl
      · rw [(foldl_addRow_spec (rowsFor rows n p) (initStats r0)).2.2.2.2.2.1]
        rfl
      · rw [(foldl_addRow_spec (rowsFor rows n p) (initStats r0)).2.2.2.2.2.2.1]
        rfl
      · rw [(foldl_addRow_spec (rowsFor rows n p) (initStats r0)).2.2.2.2.2.2.2.1]
        rfl
      · rw [(foldl_addRow_spec (rowsFor rows n p) (initStats r0)).2.2.2.2.2.2.2.2.1]
        rfl
      · rw [(foldl_addRow_spec (rowsFor rows n p) (initStats r0)).2.2.2.2.2.2.2.2.2]
        simp [initStats]

/-- Witness: the amended claim C1 applied to four concrete valid weekly
rows of one quarterback. -/
theorem c1_aggregation_witness :
    ((aggregate sampleRows).filter
        (fun e => decide (e.2.player_name = "Tom Brady") &&
          decide (e.2.position = "QB"))).length = 1 ∧
    ∀ e ∈ (aggregate sampleRows).filter
        (fun e => decide (e.2.player_name = "Tom Brady") &&
          decide (e.2.position = "QB")),
      e.2.total_fantasy_points =
        fracSum ((rowsFor sampleRows "Tom Brady" "QB").map
          fun r => r.fantasy_points_ppr) ∧
      e.2.total_passing_yards =
        fracSum ((rowsFor sampleRows "Tom Brady" "QB").map
          fun r => r.passing_yards) ∧
      e.2.total_rushing_yards =
        fracSum ((rowsFor sampleRows "Tom Brady" "QB").map
          fun r => r.rushing_yards) ∧
      e.2.total_receiving_yards =
        fracSum ((rowsFor sampleRows "Tom Brady" "QB").map
          fun r => r.receiving_yards) ∧
      e.2.total_passing_tds =
        fracSum ((rowsFor sampleRows "Tom Brady" "QB").map
          fun r => r.passing_tds) ∧
      e.2.total_rushing_tds =
        fracSum ((rowsFor sampleRows "Tom Brady" "QB").map
          fun r => r.rushing_tds) ∧
      e.2.total_receiving_tds =
        fracSum ((rowsFor sampleRows "Tom Brady" "QB").map
          fun r => r.receiving_tds) ∧
      e.2.games_played = (rowsFor sampleRows "Tom Brady" "QB").length :=
  c1_aggregation sampleRows (by decide) "Tom Brady" "QB" (by decide)

/-- Counterexample to claim C1 as stated: the rows
`("A_B", "C")` and `("A", "B_C")` carry two distinct valid
`(player_name, position)` pairs, yet both build the dictionary key
`"A_B_C"`.  The single aggregated record matching the pair `("A_B", "C")`
has `games_played = 2` although exactly one row carries that pair, and no
aggregated record at all matches the pair `("A", "B_C")`. -/
theorem c1_counterexample :
    (∃ r ∈ collisionRows,
      validRow r = true ∧ r.player_name = "A_B" ∧ r.position = "C") ∧
    ((aggregate collisionRows).filter
        (fun e => decide (e.2.player_name = "A_B") &&
          decide (e.2.position = "C"))).map (fun e => e.2.games_played) = [2] ∧
    (rowsFor collisionRows "A_B" "C").length = 1 ∧
    (∃ r ∈ collisionRows,
      validRow r = true ∧ r.player_name = "A" ∧ r.position = "B_C") ∧
    (aggregate collisionRows).filter
        (fun e => decide (e.2.player_name = "A") &&
          decide (e.2.position = "B_C")) = [] := by
  decide

theorem mem_insertPlayer {x y : PlayerStats} {l : List PlayerStats} :
    y ∈ insertPlayer x l ↔ y = x ∨ y ∈ l := by
  induction l with
  | nil => simp [insertPlayer]
  | cons z t ih =>
    by_cases h : Frac.lt z.total_fantasy_points x.total_fantasy_points
    · simp only [insertPlayer, if_pos h, List.mem_cons]
    · simp only [insertPlayer, if_neg h, List.mem_cons, ih]
      tauto

theorem pairwise_insertPlayer {x : PlayerStats} {l : List PlayerStats}
    (h : l.Pairwise
      (fun a b => Frac.le b.total_fantasy_points a.total_fantasy_points)) :
    (insertPlayer x l).Pairwise
      (fun a b => Frac.le b.total_fantasy_points a.total_fantasy_points) := by
  induction l with
  | nil => simp [insertPlayer]
  | cons z t ih =>
    rw [List.pairwise_cons] at h
    by_cases hlt : Frac.lt z.total_fantasy_points x.total_fantasy_points
    · simp only [insertPlayer, if_pos hlt]
      refine List.Pairwise.cons ?_ (List.Pairwise.cons h.1 h.2)
      intro b hb
      rcases List.mem_cons.mp hb with hbz | hbt
      · subst hbz; exact Frac.le_of_lt_f hlt
      · exact Frac.le_trans_f (h.1 b hbt) (Frac.le_of_lt_f hlt)
    · simp only [insertPlayer, if_neg hlt]
      refine List.Pairwise.cons ?_ (ih h.2)
      intro b hb
      rcases mem_insertPlayer.mp hb with hbx | hbt
      · subst hbx; exact Frac.le_of_not_lt_f hlt
      · exact h.1 b hbt

theorem perm_insertPlayer (x : PlayerStats) (l : List PlayerStats) :
    (insertPlayer x l).Perm (x :: l) := by
  induction l with
  | nil => exact List.Perm.refl _
  | cons z t ih =>
    by_cases h : Frac.lt z.total_fantasy_points x.total_fantasy_points
    · simp only [insertPlayer, if_pos h]
      exact List.Perm.refl _
    · simp only [insertPlayer, if_neg h]
      exact (List.Perm.cons z ih).trans (List.Perm.swap x z t)

theorem foldl_insert_pairwise (l : List PlayerStats) :
    ∀ acc : List PlayerStats,
      acc.Pairwise
        (fun a b => Frac.le b.total_fantasy_points a.total_fantasy_points) →
      (l.foldl (fun a x => insertPlayer x a) acc).Pairwise
        (fun a b => Frac.le b.total_fantasy_points a.total_fantasy_points) := by
  induction l with
  | nil => intro acc h; simpa
  | cons r t ih =>
    intro acc h
    simp only [List.foldl_cons]
    exact ih _ (pairwise_insertPlayer h)

theorem foldl_insert_perm (l : List PlayerStats) :
    ∀ acc : List PlayerStats,
      (l.foldl (fun a x => insertPlayer x a) acc).Perm (acc ++ l) := by
  induction l with
  | nil => intro acc; simp
  | cons r t ih =>
    intro acc
    simp only [List.foldl_cons]
    refine ((ih (insertPlayer r acc)).trans ?_).trans List.perm_middle.symm
    exact List.Perm.append_right t (perm_insertPlayer r acc)

theorem sortDesc_pairwise (l : List PlayerStats) :
    (sortDesc l).Pairwise
      (fun a b => Frac.le b.total_fantasy_points a.total_fantasy_points) :=
  foldl_insert_pairwise l [] (List.Pairwise.nil)

theorem sortDesc_perm (l : List PlayerStats) : (sortDesc l).Perm l := by
  simpa using foldl_insert_perm l []

theorem mem_sortedBucket {fps : List PlayerStats} {pos : String}
    {y : PlayerStats} :
    y ∈ sortedBucket fps pos ↔ y ∈ fps ∧ y.position = pos := by
  unfold sortedBucket
  rw [(sortDesc_perm _).mem_iff, List.mem_filter]
  simp

theorem sortedBucket_pairwise (fps : List PlayerStats) (pos : String) :
    (sortedBucket fps pos).Pairwise
      (fun a b => Frac.le b.total_fantasy_points a.total_fantasy_points) :=
  sortDesc_pairwise _

theorem nodup_keys_val_eq {β : Type} :
    ∀ {tc : List (String × β)}, (tc.map Prod.fst).Nodup →
      ∀ {k : String} {v w : β}, (k, v) ∈ tc → (k, w) ∈ tc → v = w := by
  intro tc
  induction tc with
  | nil => intro _ k v w h; simp at h
  | cons e t ih =>
    intro hnd k v w h1 h2
    simp only [List.map_cons, List.nodup_cons] at hnd
    rcases List.mem_cons.mp h1 with hh1 | hh1 <;>
      rcases List.mem_cons.mp h2 with hh2 | hh2
    · exact congrArg Prod.snd (hh1.trans hh2.symm)
    · exfalso
      apply hnd.1
      refine List.mem_map.mpr ⟨(k, w), hh2, ?_⟩
      rw [← hh1]
    · exfalso
      apply hnd.1
      refine List.mem_map.mpr ⟨(k, v), hh1, ?_⟩
      rw [← hh2]
    · exact ih hnd.2 hh1 hh2

theorem mem_selectAll {fps : List PlayerStats} {x : PlayerStats} :
    ∀ {tc : List (String × ℕ)},
      x ∈ selectAll fps tc ↔
        ∃ e ∈ tc, decide (e.1 ∈ bucketPositions) = true ∧
          x ∈ (sortedBucket fps e.1).take e.2 := by
  intro tc
  induction tc with
  | nil => simp [selectAll]
  | cons e t ih =>
    simp only [selectAll, List.mem_append, ih]
    by_cases hb : decide (e.1 ∈ bucketPositions) = true
    · rw [if_pos hb]
      constructor
      · rintro (h | ⟨f, hf, hfb, hfx⟩)
        · exact ⟨e, List.mem_cons_self _ _, hb, h⟩
        · exact ⟨f, List.mem_cons_of_mem _ hf, hfb, hfx⟩
      · rintro ⟨f, hf, hfb, hfx⟩
        rcases List.mem_cons.mp hf with hfe | hft
        · subst hfe; exact Or.inl hfx
        · exact Or.inr ⟨f, hft, hfb, hfx⟩
    · rw [if_neg hb]
      constructor
      · rintro (h | ⟨f, hf, hfb, hfx⟩)
        · exact absurd h (List.not_mem_nil x)
        · exact ⟨f, List.mem_cons_of_mem _ hf, hfb, hfx⟩
      · rintro ⟨f, hf, hfb, hfx⟩
        rcases List.mem_cons.mp hf with hfe | hft
        · subst hfe; exact absurd hfb hb
        · exact Or.inr ⟨f, hft, hfb, hfx⟩

theorem countP_selectAll_zero {fps : List PlayerStats} {p : String} :
    ∀ {tc : List (String × ℕ)}, p ∉ tc.map Prod.fst →
      (selectAll fps tc).countP (fun s => decide (s.position = p)) = 0 := by
  intro tc
  induction tc with
  | nil => intro _; simp [selectAll]
  | cons e t ih =>
    intro h
    have he : e.1 ≠ p := fun hh => h (by simp [hh])
    have ht : p ∉ t.map Prod.fst := fun hh => h (by simp [hh])
    simp only [selectAll, List.countP_append, ih ht, Nat.add_zero]
    by_cases hb : decide (e.1 ∈ bucketPositions) = true
    · rw [if_pos hb]
      rw [List.countP_eq_zero]
      intro a ha
      have hmem : a ∈ sortedBucket fps e.1 := (List.take_sublist _ _).subset ha
      have hpos := (mem_sortedBucket.mp hmem).2
      simp [hpos, he]
    · rw [if_neg hb]
      simp

theorem countP_selectAll_le {fps : List PlayerStats} :
    ∀ {tc : List (String × ℕ)}, (tc.map Prod.fst).Nodup →
      ∀ {p : String} {c : ℕ}, (p, c) ∈ tc →
        (selectAll fps tc).countP (fun s => decide (s.position = p)) ≤ c := by
  intro tc
  induction tc with
  | nil => intro _ p c h; simp at h
  | cons e t ih =>
    intro hnd p c hpc
    simp only [List.map_cons, List.nodup_cons] at hnd
    simp only [selectAll, List.countP_append]
    rcases List.mem_cons.mp hpc with he | ht
    · have hp1 : e.1 = p := by rw [← he]
      have hc1 : e.2 = c := by rw [← he]
      have hzero : (selectAll fps t).countP (fun s => decide (s.position = p)) = 0 :=
        countP_selectAll_zero (hp1 ▸ hnd.1)
      rw [hzero, Nat.add_zero]
      by_cases hb : decide (e.1 ∈ bucketPositions) = true
      · rw [if_pos hb]
        calc ((sortedBucket fps e.1).take e.2).countP
              (fun s => decide (s.position = p)) ≤
            ((sortedBucket fps e.1).take e.2).length := List.countP_le_length _
          _ ≤ e.2 := List.length_take_le _ _
          _ = c := hc1
      · rw [if_neg hb]
        simp
    · have hp_t : p ∈ t.map Prod.fst := List.mem_map.mpr ⟨(p, c), ht, rfl⟩
      have he1 : e.1 ≠ p := fun hh => hnd.1 (hh ▸ hp_t)
      have hzero : ((if decide (e.1 ∈ bucketPositions) = true then
          (sortedBucket fps e.1).take e.2 else []) : List PlayerStats).countP
          (fun s => decide (s.position = p)) = 0 := by
        by_cases hb : decide (e.1 ∈ bucketPositions) = true
        · rw [if_pos hb, List.countP_eq_zero]
          intro a ha
          have hmem : a ∈ sortedBucket fps e.1 := (List.take_sublist _ _).subset ha
          have hpos := (mem_sortedBucket.mp hmem).2
          simp [hpos, he1]
        · rw [if_neg hb]
          simp
      rw [hzero, Nat.zero_add]
      exact ih hnd.2 ht

theorem filter_selectAll_eq {fps : List PlayerStats} :
    ∀ {tc : List (String × ℕ)}, (tc.map Prod.fst).Nodup →
      ∀ {p : String} {c : ℕ}, (p, c) ∈ tc →
        (selectAll fps tc).filter (fun s => decide (s.position = p)) =
          if decide (p ∈ bucketPositions) = true then
            (sortedBucket fps p).take c
          else [] := by
  intro tc
  induction tc with
  | nil => intro _ p c h; simp at h
  | cons e t ih =>
    intro hnd p c hpc
    simp only [List.map_cons, List.nodup_cons] at hnd
    simp only [selectAll, List.filter_append]
    rcases List.mem_cons.mp hpc with he | ht
    · have hp1 : e.1 = p := by rw [← he]
      have hc1 : e.2 = c := by rw [← he]
      have hnil : (selectAll fps t).filter (fun s => decide (s.position = p)) = [] := by
        rw [List.filter_eq_nil_iff]
        intro a ha
        have hcount := @countP_selectAll_zero fps p t (hp1 ▸ hnd.1)
        rw [List.countP_eq_zero] at hcount
        exact hcount a ha
      rw [hnil, List.append_nil, hp1, hc1]
      by_cases hb : decide (p ∈ bucketPositions) = true
      · rw [if_pos hb]
        rw [List.filter_eq_self]
        intro a ha
        have hmem : a ∈ sortedBucket fps p := (List.take_sublist _ _).subset ha
        have hpos := (mem_sortedBucket.mp hmem).2
        simp [hpos]
      · rw [if_neg hb]
        simp
    · have hp_t : p ∈ t.map Prod.fst := List.mem_map.mpr ⟨(p, c), ht, rfl⟩
      have he1 : e.1 ≠ p := fun hh => hnd.1 (hh ▸ hp_t)
      have hnil : ((if decide (e.1 ∈ bucketPositions) = true then
          (sortedBucket fps e.1).take e.2 else []) : List PlayerStats).filter
          (fun s => decide (s.position = p)) = [] := by
        by_cases hb : decide (e.1 ∈ bucketPositions) = true
        · rw [if_pos hb, List.filter_eq_nil_iff]
          intro a ha
          have hmem : a ∈ sortedBucket fps e.1 := (List.take_sublist _ _).subset ha
          have hpos := (mem_sortedBucket.mp hmem).2
          simp [hpos, he1]
        · rw [if_neg hb]
          simp
      rw [hnil, List.nil_append]
      exact ih hnd.2 ht

theorem selectAll_top {fps : List PlayerStats} {tc : List (String × ℕ)}
    (hnd : (tc.map Prod.fst).Nodup) {p : String} {c : ℕ} (hpc : (p, c) ∈ tc) :
    ∀ x ∈ selectAll fps tc, x.position = p →
      ∀ y ∈ fps, y.position = p → y ∉ selectAll fps tc →
        Frac.le y.total_fantasy_points x.total_fantasy_points := by
  intro x hx hxp y hy hyp hyn
  obtain ⟨⟨q, cnt⟩, he_tc, heb, hx_take⟩ := mem_selectAll.mp hx
  have hx_bucket : x ∈ sortedBucket fps q := (List.take_sublist _ _).subset hx_take
  have hq : q = p := (mem_sortedBucket.mp hx_bucket).2.symm.trans hxp
  subst hq
  have hcc : cnt = c := nodup_keys_val_eq hnd he_tc hpc
  subst hcc
  have hyb : y ∈ sortedBucket fps q := mem_sortedBucket.mpr ⟨hy, hyp⟩
  have hyn_take : y ∉ (sortedBucket fps q).take cnt := by
    intro hcon
    exact hyn (mem_selectAll.mpr ⟨(q, cnt), he_tc, heb, hcon⟩)
  have hy_drop : y ∈ (sortedBucket fps q).drop cnt := by
    have hsplit := List.take_append_drop cnt (sortedBucket fps q)
    rw [← hsplit] at hyb
    rcases List.mem_append.mp hyb with h | h
    · exact absurd h hyn_take
    · exact h
  have hpw := sortedBucket_pairwise fps q
  rw [← List.take_append_drop cnt (sortedBucket fps q)] at hpw
  exact (List.pairwise_append.mp hpw).2.2 x hx_take y hy_drop

/-- Claim C3: for every position–count pair of the target dictionary, the
final list of `process_players` has at most `count` players of that
position, they appear in non-increasing order of `total_fantasy_points`,
and each selected player of that position scores at least as much as every
fantasy-relevant player of the same position left unselected. -/
theorem c3_selection (rows : List WeeklyRow) (tc : List (String × ℕ))
    (hnd : (tc.map Prod.fst).Nodup) (p : String) (c : ℕ) (hpc : (p, c) ∈ tc) :
    (process_players rows tc).countP (fun s => decide (s.position = p)) ≤ c ∧
    ((process_players rows tc).filter (fun s => decide (s.position = p))).Pairwise
      (fun a b => Frac.le b.total_fantasy_points a.total_fantasy_points) ∧
    ∀ x ∈ process_players rows tc, x.position = p →
      ∀ y ∈ fantasyPlayers rows, y.position = p →
        y ∉ process_players rows tc →
          Frac.le y.total_fantasy_points x.total_fantasy_points := by
  by_cases hemp : rows.isEmpty = true
  · simp only [process_players, if_pos hemp]
    refine ⟨by simp, by simp, ?_⟩
    intro x hx
    simp at hx
  · simp only [process_players, if_neg hemp]
    refine ⟨countP_selectAll_le hnd hpc, ?_, selectAll_top hnd hpc⟩
    rw [filter_selectAll_eq hnd hpc]
    by_cases hb : decide (p ∈ bucketPositions) = true
    · rw [if_pos hb]
      exact List.Pairwise.sublist (List.take_sublist _ _)
        (sortedBucket_pairwise _ _)
    · rw [if_neg hb]
      exact List.Pairwise.nil

/-- Witness: claim C3 applied to the concrete sample rows with the real
target counts of `main`, at position QB with count 35. -/
theorem c3_selection_witness :
    (process_players sampleRows target_counts_main).countP
      (fun s => decide (s.position = "QB")) ≤ 35 ∧
    ((process_players sampleRows target_counts_main).filter
      (fun s => decide (s.position = "QB"))).Pairwise
      (fun a b => Frac.le b.total_fantasy_points a.total_fantasy_points) ∧
    ∀ x ∈ process_players sampleRows target_counts_main, x.position = "QB" →
      ∀ y ∈ fantasyPlayers sampleRows, y.position = "QB" →
        y ∉ process_players sampleRows target_counts_main →
          Frac.le y.total_fantasy_points x.total_fantasy_points :=
  c3_selection sampleRows target_counts_main (by decide) "QB" 35 (by decide)

theorem create_aux_getD (now : String) :
    ∀ (l : List PlayerStats) (nst i : ℕ), i < l.length →
      (create_player_json_aux now nst l).getD i defaultEntry =
        (player_id (l.getD i defaultPlayerStats) (nst + i),
         mkRecord (l.getD i defaultPlayerStats) (nst + i) now) := by
  intro l
  induction l with
  | nil => intro nst i h; simp at h
  | cons p t ih =>
    intro nst i h
    cases i with
    | zero => simp [create_player_json_aux]
    | succ j =>
      simp only [create_player_json_aux, List.getD_cons_succ]
      have hj : j < t.length := by simpa using h
      rw [ih (nst + 1) j hj]
      have harith : nst + 1 + j = nst + (j + 1) := by omega
      rw [harith]

/-- Claim C4: the record emitted for each processed player carries
`projected_points_ppr = round((total_fantasy_points / max(games_played, 1))
* 17, 1)`: the per-game average of the summed points projected to a
17-game season summed, rounded to one decimal. -/
theorem c4_projection (processed : List PlayerStats) (now : String) (i : ℕ)
    (h : i < processed.length) :
    ((create_player_json processed now).getD i
        defaultEntry).2.projected_points_ppr =
      pyRound1 (((processed.getD i defaultPlayerStats).total_fantasy_points.divP
        (gamesP (processed.getD i defaultPlayerStats).games_played)).mul
          (Frac.fz 17)) := by
  unfold create_player_json
  rw [create_aux_getD now processed 0 i h]
  rfl

/-- Witness: claim C4 at index 0 of the concrete processed sample. -/
theorem c4_projection_witness :
    ((create_player_json (process_players sampleRows target_counts_main)
        "t").getD 0 defaultEntry).2.projected_points_ppr =
      pyRound1 ((((process_players sampleRows target_counts_main).getD 0
          defaultPlayerStats).total_fantasy_points.divP
        (gamesP ((process_players sampleRows target_counts_main).getD 0
          defaultPlayerStats).games_played)).mul (Frac.fz 17)) :=
  c4_projection (process_players sampleRows target_counts_main) "t" 0 (by decide)

theorem foldl_lastTok_no_underscore :
    ∀ (cs : List Char) (acc : List Char), (∀ c ∈ cs, c ≠ '_') →
      List.foldl (fun acc c => if c = '_' then [] else acc ++ [c]) acc cs =
        acc ++ cs := by
  intro cs
  induction cs with
  | nil => intro acc _; simp
  | cons c t ih =>
    intro acc h
    have hc : ¬c = '_' := h c (List.mem_cons_self _ _)
    simp only [List.foldl_cons, if_neg hc]
    rw [ih (acc ++ [c]) (fun d hd => h d (List.mem_cons_of_mem _ hd))]
    simp

theorem lastTok_append_underscore (xs ys : List Char)
    (h : ∀ c ∈ ys, c ≠ '_') : lastTok (xs ++ '_' :: ys) = ys := by
  unfold lastTok
  rw [List.foldl_append]
  simp only [List.foldl_cons, if_pos rfl]
  exact (foldl_lastTok_no_underscore ys [] h).trans (List.nil_append ys)

theorem digitChar10_ne_underscore (n : ℕ) : digitChar10 n ≠ '_' := by
  unfold digitChar10
  split <;> decide

theorem digitChar10_val (n : ℕ) (h : n < 10) : (digitChar10 n).toNat - 48 = n := by
  interval_cases n <;> decide

theorem decRepAux_no_underscore :
    ∀ (fuel n : ℕ), ∀ c ∈ decRepAux fuel n, c ≠ '_' := by
  intro fuel
  induction fuel with
  | zero => intro n c hc; simp [decRepAux] at hc
  | succ f ih =>
    intro n c hc
    unfold decRepAux at hc
    by_cases h : n < 10
    · rw [if_pos h] at hc
      simp only [List.mem_singleton] at hc
      subst hc
      exact digitChar10_ne_underscore n
    · rw [if_neg h] at hc
      rcases List.mem_append.mp hc with h1 | h1
      · exact ih (n / 10) c h1
      · simp only [List.mem_singleton] at h1
        subst h1
        exact digitChar10_ne_underscore _

theorem charVal_append_digit (xs : List Char) (c : Char) :
    charVal (xs ++ [c]) = charVal xs * 10 + (c.toNat - 48) := by
  unfold charVal
  rw [List.foldl_append]
  simp

theorem decRepAux_val : ∀ fuel n : ℕ, n < fuel →
    charVal (decRepAux fuel n) = n := by
  intro fuel
  induction fuel with
  | zero => intro n h; omega
  | succ f ih =>
    intro n h
    unfold decRepAux
    by_cases h10 : n < 10
    · rw [if_pos h10]
      unfold charVal
      simp only [List.foldl_cons, List.foldl_nil]
      rw [Nat.zero_mul, Nat.zero_add, digitChar10_val n h10]
    · rw [if_neg h10, charVal_append_digit]
      have hdiv : n / 10 < f := by omega
      rw [ih (n / 10) hdiv, digitChar10_val (n % 10) (Nat.mod_lt n (by omega))]
      omega

theorem foldl_zeros (k : ℕ) :
    List.foldl (fun a c => a * 10 + (c.toNat - 48)) 0 (List.replicate k '0') = 0 := by
  induction k with
  | zero => rfl
  | succ j ih =>
    rw [List.replicate_succ]
    simp only [List.foldl_cons]
    have h : 0 * 10 + (Char.toNat '0' - 48) = 0 := by decide
    rw [h]
    exact ih

theorem pad3_val (n : ℕ) : charVal (pad3 n) = n := by
  unfold pad3 charVal
  rw [List.foldl_append, foldl_zeros]
  have h := decRepAux_val (n + 1) n (by omega)
  unfold charVal at h
  unfold decRep
  exact h

theorem pad3_no_underscore (n : ℕ) : ∀ c ∈ pad3 n, c ≠ '_' := by
  intro c hc
  unfold pad3 at hc
  rcases List.mem_append.mp hc with h | h
  · have := List.eq_of_mem_replicate h
    subst this
    decide
  · unfold decRep at h
    exact decRepAux_no_underscore _ _ c h

theorem pad3_inj {i j : ℕ} (h : pad3 i = pad3 j) : i = j := by
  have hv := congrArg charVal h
  rwa [pad3_val, pad3_val] at hv

theorem player_id_inj_idx {p q : PlayerStats} {i j : ℕ}
    (h : player_id p i = player_id q j) : i = j := by
  unfold player_id at h
  have hdata : player_id_chars p i = player_id_chars q j := by
    have := congrArg String.data h
    simpa using this
  have h1 : lastTok (player_id_chars p i) = pad3 i := by
    unfold player_id_chars
    exact lastTok_append_underscore _ _ (pad3_no_underscore i)
  have h2 : lastTok (player_id_chars q j) = pad3 j := by
    unfold player_id_chars
    exact lastTok_append_underscore _ _ (pad3_no_underscore j)
  exact pad3_inj (by rw [← h1, hdata, h2])

theorem create_aux_keys (now : String) :
    ∀ (l : List PlayerStats) (nst : ℕ),
      ((create_player_json_aux now nst l).map Prod.fst).Nodup ∧
      ∀ k ∈ (create_player_json_aux now nst l).map Prod.fst,
        ∃ p m, nst ≤ m ∧ k = player_id p m := by
  intro l
  induction l with
  | nil =>
    intro nst
    constructor
    · simp [create_player_json_aux]
    · intro k hk
      simp [create_player_json_aux] at hk
  | cons p t ih =>
    intro nst
    obtain ⟨ihnd, ihshape⟩ := ih (nst + 1)
    constructor
    · simp only [create_player_json_aux, List.map_cons, List.nodup_cons]
      refine ⟨?_, ihnd⟩
      intro hmem
      obtain ⟨q, m, hm, hk⟩ := ihshape _ hmem
      have := player_id_inj_idx hk
      omega
    · intro k hk
      simp only [create_player_json_aux, List.map_cons, List.mem_cons] at hk
      rcases hk with hk | hk
      · exact ⟨p, nst, Nat.le_refl _, hk⟩
      · obtain ⟨q, m, hm, hkk⟩ := ihshape k hk
        exact ⟨q, m, by omega, hkk⟩

theorem create_aux_length (now : String) :
    ∀ (l : List PlayerStats) (nst : ℕ),
      (create_player_json_aux now nst l).length = l.length := by
  intro l
  induction l with
  | nil => intro nst; rfl
  | cons p t ih =>
    intro nst
    simp [create_player_json_aux, ih]

/-- Claim C8: the player ids generated by `create_player_json` are pairwise
distinct (the zero-padded index suffix separates them even for identical
names), so the players dictionary has exactly one entry per processed
player and its size is the length of the input list. -/
theorem c8_unique_ids (processed : List PlayerStats) (now : String) :
    ((create_player_json processed now).map Prod.fst).Nodup ∧
    (create_player_json processed now).length = processed.length :=
  ⟨(create_aux_keys now processed 0).1, create_aux_length now processed 0⟩

theorem create_aux_shape (now : String) :
    ∀ (l : List PlayerStats) (nst : ℕ),
      ∀ e ∈ create_player_json_aux now nst l,
        ∃ p m, p ∈ l ∧ e = (player_id p m, mkRecord p m now) := by
  intro l
  induction l with
  | nil => intro nst e he; simp [create_player_json_aux] at he
  | cons p t ih =>
    intro nst e he
    simp only [create_player_json_aux, List.mem_cons] at he
    rcases he with he | he
    · exact ⟨p, nst, List.mem_cons_self _ _, he⟩
    · obtain ⟨q, m, hq, hqe⟩ := ih (nst + 1) e he
      exact ⟨q, m, List.mem_cons_of_mem _ hq, hqe⟩

theorem halfEvenRound_nonneg {x : Frac} (h : 0 ≤ x.num) :
    0 ≤ halfEvenRound x := by
  have hf : 0 ≤ x.floorF := by
    unfold Frac.floorF
    exact Int.fdiv_nonneg h (le_of_lt (Frac.denZ_pos x))
  unfold halfEvenRound
  split
  · exact hf
  · split
    · omega
    · split <;> omega

theorem pyRound1_nonneg {x : Frac} (h : 0 ≤ x.num) :
    Frac.le (Frac.fz 0) (pyRound1 x) := by
  unfold pyRound1 Frac.le Frac.fz Frac.denZ
  simp only [PNat.mk_ofNat, PNat.val_ofNat, Nat.cast_ofNat, Int.zero_mul]
  have h10 : 0 ≤ (x.mul (Frac.fz 10)).num := by
    unfold Frac.mul Frac.fz
    simp only
    omega
  have := halfEvenRound_nonneg h10
  positivity

theorem minF_le_second (x y : Frac) : Frac.le (Frac.minF x y) y := by
  unfold Frac.minF
  split
  · assumption
  · exact Frac.le_rfl_f y

theorem minF_nonneg {x y : Frac} (hx : Frac.le (Frac.fz 0) x)
    (hy : Frac.le (Frac.fz 0) y) : Frac.le (Frac.fz 0) (Frac.minF x y) := by
  unfold Frac.minF
  split
  · exact hx
  · exact hy

theorem mkRecord_risk_bounds (p : PlayerStats) (m : ℕ) (now : String) :
    Frac.le (Frac.fz 0) (mkRecord p m now).risk_score ∧
    Frac.le (mkRecord p m now).risk_score (Frac.fz 10) := by
  simp only [mkRecord]
  constructor
  · apply minF_nonneg
    · apply pyRound1_nonneg
      exact abs_nonneg _
    · decide
  · exact minF_le_second _ _

/-- Claim C9: the `risk_score` of every record emitted by
`create_player_json` lies in `[0, 10]`: it is
`min(round(|projected - 100| / 10, 1), 10.0)`, non-negative and capped. -/
theorem c9_risk_bounds (processed : List PlayerStats) (now : String) :
    ∀ e ∈ create_player_json processed now,
      Frac.le (Frac.fz 0) e.2.risk_score ∧
      Frac.le e.2.risk_score (Frac.fz 10) := by
  intro e he
  obtain ⟨p, m, _, hshape⟩ := create_aux_shape now processed 0 e he
  rw [hshape]
  exact mkRecord_risk_bounds p m now

/-- Witness: claim C9 at the first record of the concrete processed
sample. -/
theorem c9_risk_bounds_witness :
    Frac.le (Frac.fz 0)
      ((create_player_json (process_players sampleRows target_counts_main)
        "t").getD 0 defaultEntry).2.risk_score ∧
    Frac.le ((create_player_json (process_players sampleRows
        target_counts_main) "t").getD 0 defaultEntry).2.risk_score
      (Frac.fz 10) :=
  c9_risk_bounds (process_players sampleRows target_counts_main) "t" _ (by decide)

theorem frac_not_lt_of_le {x y : Frac} (h : Frac.le x y) : ¬Frac.lt y x :=
  fun hlt => absurd h (Int.not_le.mpr hlt)

theorem must_starts_eq (blob : List (String × GhPlayer))
    (adpL : Option (List (String × AdpInfo))) (now : String) :
    (perform_enhanced_analysis blob adpL now).must_starts =
      blob.filterMap (fun e =>
        if cond_must (analyze_player_with_ai (updated_player adpL e.2)) then
          some (mkCatEntry e.1 (updated_player adpL e.2)
            (analyze_player_with_ai (updated_player adpL e.2)))
        else none) := rfl

theorem sleepers_eq (blob : List (String × GhPlayer))
    (adpL : Option (List (String × AdpInfo))) (now : String) :
    (perform_enhanced_analysis blob adpL now).sleepers =
      blob.filterMap (fun e =>
        if cond_sleeper (analyze_player_with_ai (updated_player adpL e.2)) then
          some (mkCatEntry e.1 (updated_player adpL e.2)
            (analyze_player_with_ai (updated_player adpL e.2)))
        else none) := rfl

theorem busts_eq (blob : List (String × GhPlayer))
    (adpL : Option (List (String × AdpInfo))) (now : String) :
    (perform_enhanced_analysis blob adpL now).busts =
      blob.filterMap (fun e =>
        if cond_bust (analyze_player_with_ai (updated_player adpL e.2)) then
          some (mkBustEntry e.1 (updated_player adpL e.2)
            (analyze_player_with_ai (updated_player adpL e.2)))
        else none) := rfl

theorem catlist_elim {blob : List (String × GhPlayer)}
    {adpL : Option (List (String × AdpInfo))} {cond : Analysis → Prop}
    [DecidablePred cond] {mk : String → GhPlayer → Analysis → CatEntry}
    (hmk : ∀ pid p a, (mk pid p a).player_id = pid) {pid : String}
    (h : pid ∈ (blob.filterMap (fun e =>
      if cond (analyze_player_with_ai (updated_player adpL e.2)) then
        some (mk e.1 (updated_player adpL e.2)
          (analyze_player_with_ai (updated_player adpL e.2)))
      else none)).map CatEntry.player_id) :
    ∃ p, (pid, p) ∈ blob ∧ cond (analysis_of adpL p) := by
  simp only [List.mem_map, List.mem_filterMap] at h
  obtain ⟨ce, ⟨e, he, hfe⟩, hpid⟩ := h
  by_cases hc : cond (analyze_player_with_ai (updated_player adpL e.2))
  · rw [if_pos hc] at hfe
    have hce := Option.some.inj hfe
    have hpe : e.1 = pid := by rw [← hpid, ← hce, hmk]
    refine ⟨e.2, ?_, hc⟩
    rw [← hpe, Prod.mk.eta]
    exact he
  · rw [if_neg hc] at hfe
    exact absurd hfe (by simp)

/-- Claim C10: within one analysis run over a blob with distinct player
ids, the `must_starts`, `sleepers` and `busts` lists are pairwise disjoint
(the categorization is an `if`/`elif` chain), and a player whose rounded
score lies in `[115, 140)` with `adp_vs_projection ≥ -20` lands in none of
the three. -/
theorem c10_disjoint_categories (blob : List (String × GhPlayer))
    (adpL : Option (List (String × AdpInfo))) (now : String)
    (hnd : (blob.map Prod.fst).Nodup) (pid : String) :
    (¬(pid ∈ (perform_enhanced_analysis blob adpL now).must_starts.map
        CatEntry.player_id ∧
       pid ∈ (perform_enhanced_analysis blob adpL now).sleepers.map
        CatEntry.player_id)) ∧
    (¬(pid ∈ (perform_enhanced_analysis blob adpL now).must_starts.map
        CatEntry.player_id ∧
       pid ∈ (perform_enhanced_analysis blob adpL now).busts.map
        CatEntry.player_id)) ∧
    (¬(pid ∈ (perform_enhanced_analysis blob adpL now).sleepers.map
        CatEntry.player_id ∧
       pid ∈ (perform_enhanced_analysis blob adpL now).busts.map
        CatEntry.player_id)) ∧
    (∀ p : GhPlayer, (pid, p) ∈ blob →
      Frac.le (Frac.fz 115) (analysis_of adpL p).score →
      Frac.lt (analysis_of adpL p).score (Frac.fz 140) →
      Frac.le (Frac.fz (-20)) (analysis_of adpL p).adp_vs_projection →
      pid ∉ (perform_enhanced_analysis blob adpL now).must_starts.map
        CatEntry.player_id ∧
      pid ∉ (perform_enhanced_analysis blob adpL now).sleepers.map
        CatEntry.player_id ∧
      pid ∉ (perform_enhanced_analysis blob adpL now).busts.map
        CatEntry.player_id) := by
  have elimM : pid ∈ (perform_enhanced_analysis blob adpL now).must_starts.map
      CatEntry.player_id → ∃ p, (pid, p) ∈ blob ∧ cond_must (analysis_of adpL p) := by
    intro h
    rw [must_starts_eq] at h
    exact catlist_elim (fun _ _ _ => rfl) h
  have elimS : pid ∈ (perform_enhanced_analysis blob adpL now).sleepers.map
      CatEntry.player_id →
      ∃ p, (pid, p) ∈ blob ∧ cond_sleeper (analysis_of adpL p) := by
    intro h
    rw [sleepers_eq] at h
    exact catlist_elim (fun _ _ _ => rfl) h
  have elimB : pid ∈ (perform_enhanced_analysis blob adpL now).busts.map
      CatEntry.player_id → ∃ p, (pid, p) ∈ blob ∧ cond_bust (analysis_of adpL p) := by
    intro h
    rw [busts_eq] at h
    exact catlist_elim (fun _ _ _ => rfl) h
  refine ⟨?_, ?_, ?_, ?_⟩
  · rintro ⟨h1, h2⟩
    obtain ⟨p1, hp1, hc1⟩ := elimM h1
    obtain ⟨p2, hp2, hc2⟩ := elimS h2
    have := nodup_keys_val_eq hnd hp1 hp2
    subst this
    exact hc2.1 hc1
  · rintro ⟨h1, h2⟩
    obtain ⟨p1, hp1, hc1⟩ := elimM h1
    obtain ⟨p2, hp2, hc2⟩ := elimB h2
    have := nodup_keys_val_eq hnd hp1 hp2
    subst this
    exact hc2.1 hc1
  · rintro ⟨h1, h2⟩
    obtain ⟨p1, hp1, hc1⟩ := elimS h1
    obtain ⟨p2, hp2, hc2⟩ := elimB h2
    have := nodup_keys_val_eq hnd hp1 hp2
    subst this
    exact hc2.2.1 ⟨hc1.2.1, hc1.2.2⟩
  · intro p hp h115 h140 hm20
    refine ⟨?_, ?_, ?_⟩
    · intro h
      obtain ⟨q, hq, hcq⟩ := elimM h
      have := nodup_keys_val_eq hnd hq hp
      subst this
      exact frac_not_lt_of_le hcq h140
    · intro h
      obtain ⟨q, hq, hcq⟩ := elimS h
      have := nodup_keys_val_eq hnd hq hp
      subst this
      exact frac_not_lt_of_le h115 hcq.2.2
    · intro h
      obtain ⟨q, hq, hcq⟩ := elimB h
      have := nodup_keys_val_eq hnd hq hp
      subst this
      exact frac_not_lt_of_le hm20 hcq.2.2

/-- Witness: claim C10 on a one-player blob whose analysis score is 120,
inside `[115, 140)`, with a large positive `adp_vs_projection`. -/
theorem c10_disjoint_categories_witness :
    (¬("p1" ∈ (perform_enhanced_analysis sampleBlob.players none
        "t").must_starts.map CatEntry.player_id ∧
       "p1" ∈ (perform_enhanced_analysis sampleBlob.players none
        "t").sleepers.map CatEntry.player_id)) ∧
    (¬("p1" ∈ (perform_enhanced_analysis sampleBlob.players none
        "t").must_starts.map CatEntry.player_id ∧
       "p1" ∈ (perform_enhanced_analysis sampleBlob.players none
        "t").busts.map CatEntry.player_id)) ∧
    (¬("p1" ∈ (perform_enhanced_analysis sampleBlob.players none
        "t").sleepers.map CatEntry.player_id ∧
       "p1" ∈ (perform_enhanced_analysis sampleBlob.players none
        "t").busts.map CatEntry.player_id)) ∧
    (∀ p : GhPlayer, ("p1", p) ∈ sampleBlob.players →
      Frac.le (Frac.fz 115) (analysis_of none p).score →
      Frac.lt (analysis_of none p).score (Frac.fz 140) →
      Frac.le (Frac.fz (-20)) (analysis_of none p).adp_vs_projection →
      "p1" ∉ (perform_enhanced_analysis sampleBlob.players none
        "t").must_starts.map CatEntry.player_id ∧
      "p1" ∉ (perform_enhanced_analysis sampleBlob.players none
        "t").sleepers.map CatEntry.player_id ∧
      "p1" ∉ (perform_enhanced_analysis sampleBlob.players none
        "t").busts.map CatEntry.player_id) :=
  c10_disjoint_categories sampleBlob.players none "t" (by decide) "p1"

/-- Claim C7: both written objects carry a metadata block whose counts are
consistent with the payload: in `players.json` `total_players` is the size
of the players payload, and in `ai_insights.json` `players_analyzed` is the
number of players the analysis loop iterated over (also the size of its
`player_analysis` payload); both carry a version and a timestamp. -/
theorem c7_metadata_consistency (pd : List (String × PlayerRecord))
    (now : String) (blob : List (String × GhPlayer))
    (adpL : Option (List (String × AdpInfo))) (now2 : String) :
    (build_database pd now).metadata.total_players =
      (build_database pd now).players.length ∧
    (build_database pd now).metadata.version = "3.1" ∧
    (build_database pd now).metadata.last_updated = now ∧
    (perform_enhanced_analysis blob adpL now2).metadata.players_analyzed =
      blob.length ∧
    (perform_enhanced_analysis blob adpL now2).metadata.players_analyzed =
      (perform_enhanced_analysis blob adpL now2).player_analysis.length ∧
    (perform_enhanced_analysis blob adpL now2).metadata.ai_version =
      "enhanced_v2.0" ∧
    (perform_enhanced_analysis blob adpL now2).metadata.analysis_date = now2 := by
  refine ⟨rfl, rfl, rfl, rfl, ?_, rfl, rfl⟩
  simp [perform_enhanced_analysis]

/-- Claim C5 (amended): every exception from the three external calls is
caught inside the fetching function, which returns `None` instead of
propagating.  An ADP fetch failure falls back (the analysis still runs,
with simulated ADP data) and the run writes both output files.  But a
weekly-data import failure makes `main` return early: nothing is written
and no fallback data is substituted. -/
theorem c5_error_handling :
    (∀ e : String, load_nfl_data (Except.error e) = none) ∧
    (∀ e : String, fetch_github_player_data (Except.error e) = none) ∧
    (∀ e : String, fetch_current_adp_data (Except.error e) = none) ∧
    (∀ (rows : List WeeklyRow) (blob : PlayersData) (e : String) (now : String),
      process_players rows target_counts_main ≠ [] →
      (mainRun (Except.ok rows) (Except.ok blob) (Except.error e) now).map
        Prod.fst = ["json_data/players.json", "json_data/ai_insights.json"]) ∧
    (∀ (e : String) (blobRes : Except String PlayersData)
      (adpRes : Except String (List AdpPlayer)) (now : String),
      mainRun (Except.error e) blobRes adpRes now = []) := by
  refine ⟨fun e => rfl, fun e => rfl, fun e => rfl, ?_, fun e b a n => rfl⟩
  intro rows blob e now hne
  simp [mainRun, load_nfl_data, enhanced_run, fetch_github_player_data,
    fetch_current_adp_data, List.isEmpty_iff, hne]

/-- Witness: the ADP-failure fallback of amended claim C5 on concrete
inputs. -/
theorem c5_error_handling_witness :
    (mainRun (Except.ok sampleRows) (Except.ok sampleBlob) (Except.error "x")
      "t").map Prod.fst =
      ["json_data/players.json", "json_data/ai_insights.json"] :=
  c5_error_handling.2.2.2.1 sampleRows sampleBlob "x" "t" (by decide)

/-- Counterexample to claim C5 as stated: when the weekly-data import
fails, the run does not fall back to defaulted or simulated data and
continue — it writes nothing at all; likewise an analysis run whose
players-blob fetch fails writes nothing. -/
theorem c5_counterexample :
    mainRun (Except.error "network down") (Except.ok sampleBlob)
      (Except.ok []) "t" = [] ∧
    enhanced_run (Except.error "HTTP 404") (Except.ok []) "t" = [] :=
  ⟨rfl, rfl⟩

/-- Claim C6 (amended): a successful run writes exactly
`json_data/players.json` and `json_data/ai_insights.json`; no
`injuries.json` file is ever written by this script. -/
theorem c6_files_written (rows : List WeeklyRow) (blob : PlayersData)
    (adpRes : Except String (List AdpPlayer)) (now : String)
    (hne : process_players rows target_counts_main ≠ []) :
    (mainRun (Except.ok rows) (Except.ok blob) adpRes now).map Prod.fst =
      ["json_data/players.json", "json_data/ai_insights.json"] ∧
    "json_data/injuries.json" ∉
      (mainRun (Except.ok rows) (Except.ok blob) adpRes now).map Prod.fst := by
  have h1 : (mainRun (Except.ok rows) (Except.ok blob) adpRes now).map
      Prod.fst = ["json_data/players.json", "json_data/ai_insights.json"] := by
    simp [mainRun, load_nfl_data, enhanced_run, fetch_github_player_data,
      List.isEmpty_iff, hne]
  refine ⟨h1, ?_⟩
  rw [h1]
  decide

/-- Witness: amended claim C6 on concrete successful inputs. -/
theorem c6_files_written_witness :
    (mainRun (Except.ok sampleRows) (Except.ok sampleBlob) (Except.ok [])
      "t").map Prod.fst =
      ["json_data/players.json", "json_data/ai_insights.json"] ∧
    "json_data/injuries.json" ∉
      (mainRun (Except.ok sampleRows) (Except.ok sampleBlob) (Except.ok [])
        "t").map Prod.fst :=
  c6_files_written sampleRows sampleBlob (Except.ok []) "t" (by decide)

/-- Counterexample to claim C6 as stated: a fully successful concrete run
(weekly rows load, players blob and ADP response all succeed, players are
processed) writes `players.json` and `ai_insights.json` but no
`injuries.json`. -/
theorem c6_counterexample :
    (mainRun (Except.ok sampleRows) (Except.ok sampleBlob)
      (Except.ok [⟨"Some Guy", Frac.fz 12, none, none, none⟩]) "t").map
      Prod.fst = ["json_data/players.json", "json_data/ai_insights.json"] ∧
    "json_data/injuries.json" ∉
      (mainRun (Except.ok sampleRows) (Except.ok sampleBlob)
        (Except.ok [⟨"Some Guy", Frac.fz 12, none, none, none⟩]) "t").map
        Prod.fst := by
  decide

end NFLData
